import Mathlib

/-! # vp-loadtest: a shallow embedding of `loadtest.cc`

`loadtest.cc` is a single-threaded load-test client for a presence based chat
service.  It signs on, enters a room, and on every expiry of an interval timer
whispers a timestamped message to itself, moves to a random position and now
and then says a quote taken from a fortune file.  The echo of each whisper is
timed and reported when it took too long.

The embedding follows the source function by function:

* C strings are lists of characters (`CStr`); a buffer is read up to its first
  NUL by `cstr`.
* `int` values are `Int` values brought back into range by `wrap32` after
  every arithmetic step; `long` and `time_t` values are brought back into the
  range of the platform (`wrapLong`: 32 bits on ILP32, 64 bits on LP64); the
  record counter `numFortunes`, which only counts up from 0 while the fortune
  file is read, is a natural number.
* an access outside an array or a buffer (the unchecked array read of
  `getSomethingToSay`, a `sprintf` that does not fit its buffer, reading a
  file that could not be opened) has no defined behaviour in C: the model ends
  the run there with `Ending.faulted` and follows it no further.
* `float` arithmetic is modelled exactly: a value is a fraction of naturals and
  every operation (conversion from an integer, division, multiplication)
  rounds to a 24-bit significand, ties to even (`rnd24`); all values that occur
  are non-negative and in the normal range.
* the global variables of the program are the fields of `Globals`; every
  function that touches them takes the record and returns the new one.
* calls into the chat SDK and the C library are recorded as `Action`s; what
  those calls return is supplied by the caller of the model (`TickEnv`,
  `Event`), so the theorems hold for every behaviour of the environment.
* constants that come from headers outside the repository (`VP_OK`,
  `VP_ROOM_IS_FULL`, `RAND_MAX`, the attribute ids, whether `ubqAssert`
  aborts) and the data model of the machine (width of `long` and `time_t`,
  byte order) are the fields of `Platform`.
-/

namespace LoadTest

/-! ## The platform -/

/-- Constants and macros declared in headers outside the repository, and the
data model of the machine. -/
structure Platform where
  /-- the SDK result code for success -/
  VP_OK : Int
  /-- the SDK result code of a navigation into a full room -/
  VP_ROOM_IS_FULL : Int
  /-- attribute id of the community name -/
  VP_ATTR_COMM_NAME : Nat
  /-- attribute id of the lobby URL -/
  VP_ATTR_LOBBY_URL : Nat
  /-- largest value returned by `rand()` -/
  RAND_MAX : Nat
  /-- whether a failed `ubqAssert` stops the process -/
  assertAborts : Bool
  /-- whether `long`, `unsigned long` and `time_t` are 64 bits wide (LP64);
  otherwise they are 32 bits wide like `int` (ILP32) -/
  lp64 : Bool
  /-- whether the machine stores the most significant byte first -/
  bigEndian : Bool

/-! ## Machine integers -/

/-- Two's complement reduction of an integer to the range of a 32-bit `int`. -/
def wrap32 (x : Int) : Int := (x + 2147483648) % 4294967296 - 2147483648

/-- Value range of a 32-bit `int`. -/
def inInt32 (x : Int) : Prop := -2147483648 ≤ x ∧ x < 2147483648

instance (x : Int) : Decidable (inInt32 x) := by unfold inInt32; infer_instance

/-- Two's complement reduction of an integer to the range of a 64-bit
integer. -/
def wrap64 (x : Int) : Int :=
  (x + 9223372036854775808) % 18446744073709551616 - 9223372036854775808

/-- Reduction of an integer to the range of `long` and `time_t`. -/
def wrapLong (P : Platform) (x : Int) : Int := if P.lp64 then wrap64 x else wrap32 x

/-- Value range of `long` and `time_t`. -/
def inLong (P : Platform) (x : Int) : Prop :=
  if P.lp64 then -9223372036854775808 ≤ x ∧ x < 9223372036854775808 else inInt32 x

instance (P : Platform) (x : Int) : Decidable (inLong P x) := by
  unfold inLong; infer_instance

/-- The value `strtol` returns for a number outside the range of `long`: the
nearest end of the range. -/
def clampLong (P : Platform) (x : Int) : Int :=
  if P.lp64 then max (-9223372036854775808) (min 9223372036854775807 x)
  else max (-2147483648) (min 2147483647 x)

/-- Conversion of an `int` to the `unsigned long` behind `UbqUlong`. -/
def toUlong (P : Platform) (x : Int) : Nat :=
  if P.lp64 then (x % 18446744073709551616).toNat else (x % 4294967296).toNat

/-- The value of a `time_t` variable that held `old` after the `int` `v` has
been stored through its address, as `sscanf` does for `%d`.  Where `time_t`
has the width of `int` the variable holds `v`.  Where it is 64 bits wide only
four of its eight bytes are written, the low half on a little-endian machine
and the high half on a big-endian one; the other half keeps what `old` had
there. -/
def storeInt (P : Platform) (old v : Int) : Int :=
  if P.lp64 then
    if P.bigEndian then
      wrap64 (v % 4294967296 * 4294967296 + old % 18446744073709551616 % 4294967296)
    else
      wrap64 (old % 18446744073709551616 / 4294967296 * 4294967296 + v % 4294967296)
  else v

/-! ## C strings -/

/-- A character buffer. -/
abbrev CStr := List Char

/-- The NUL character that ends a C string. -/
def NUL : Char := Char.ofNat 0

/-- The line feed character. -/
def LF : Char := Char.ofNat 10

/-- The horizontal tab character. -/
def TAB : Char := Char.ofNat 9

/-- The C string held in a buffer: the characters before the first NUL. -/
def cstr (buf : CStr) : CStr := buf.takeWhile (fun c => c != NUL)

/-- Replace the first occurrence of the character `c` by `d`; models
`p = strchr(line, c); if (p) *p = d`. -/
def replaceFirst (c d : Char) : CStr → CStr
  | [] => []
  | x :: xs => if x = c then d :: xs else x :: replaceFirst c d xs

/-! ## `makeStr` -/

/-- Source: `makeStr` (loadtest.cc 121-131).  For `l > 0` a buffer of `l`
bytes is allocated, byte `i` is set to `a + i % 26`, and then the last byte is
overwritten with NUL.  For `l = 0` the null pointer is returned (`none`). -/
def makeStr (l : Nat) : Option CStr :=
  if l > 0 then
    some (((List.range l).map (fun i => Char.ofNat (97 + i % 26))).set (l - 1) NUL)
  else none

/-- The text a `%s` conversion prints for a `char*`: the C string, or glibc's
`(null)` for the null pointer. -/
def showStr : Option CStr → CStr
  | some buf => cstr buf
  | none => "(null)".toList

/-! ## Single precision arithmetic -/

/-- A non-negative `float` value, held exactly as `num / den`. -/
structure F32 where
  num : Nat
  den : Nat
deriving DecidableEq, Repr

/-- Number of doublings of `p` needed before `p / q` reaches `2^23`. -/
def scaleUp : Nat → Nat → Nat → Nat
  | 0, _, _ => 0
  | f + 1, p, q => if p / q < 8388608 then scaleUp f (2 * p) q + 1 else 0

/-- Number of doublings of `q` needed before `p / q` drops below `2^24`. -/
def scaleDown : Nat → Nat → Nat → Nat
  | 0, _, _ => 0
  | f + 1, p, q => if 16777216 ≤ p / q then scaleDown f p (2 * q) + 1 else 0

/-- Round the non-negative rational `p / q` to the nearest value with a 24-bit
significand, ties to even (IEEE 754 binary32, normal range). -/
def rnd24 (p q : Nat) : F32 :=
  if p = 0 ∨ q = 0 then ⟨0, 1⟩ else
  let u := scaleUp (q + 24) p q
  let d := scaleDown p p q
  let n := p * 2 ^ u
  let m := q * 2 ^ d
  let fl := n / m
  let rm := n % m
  let sig := if m < 2 * rm ∨ (2 * rm = m ∧ fl % 2 = 1) then fl + 1 else fl
  ⟨sig * 2 ^ d, 2 ^ u⟩

/-- Conversion `(float)n` of a non-negative integer. -/
def F32.ofNat (n : Nat) : F32 := rnd24 n 1

/-- Single precision division by a positive value (`RAND_MAX` in this
program). -/
def F32.div (a b : F32) : F32 := rnd24 (a.num * b.den) (a.den * b.num)

/-- Single precision multiplication. -/
def F32.mul (a b : F32) : F32 := rnd24 (a.num * b.num) (a.den * b.den)

/-- Conversion of a non-negative `float` to an integer: truncation. -/
def F32.trunc (a : F32) : Nat := a.num / a.den

/-- The C expression `(float)(rand()) / RAND_MAX * n` converted to an integer,
for a value `r` returned by `rand()`.  Both integer operands are converted to
`float` before the operation that uses them. -/
def scaleRand (RAND_MAX r n : Nat) : Nat :=
  ((F32.div (F32.ofNat r) (F32.ofNat RAND_MAX)).mul (F32.ofNat n)).trunc

/-- Source: the macro `R_POS` (loadtest.cc 44), a random coordinate converted
to the 16-bit `UbqUshort`. -/
def R_POS (RAND_MAX r : Nat) : Nat := scaleRand RAND_MAX r 10000 % 65536

/-! ## The fortune file -/

/-- Characters one `fgets` call stores when at most `n` characters fit: the
line up to and including its line feed, or the first `n` characters of it. -/
def fgetsAux : Nat → CStr → CStr × CStr
  | 0, rest => ([], rest)
  | _ + 1, [] => ([], [])
  | n + 1, c :: cs =>
    if c = LF then ([c], cs) else ((fgetsAux n cs).1.cons c, (fgetsAux n cs).2)

/-- `fgets(line, size, f)` on the unread part of a file: `none` at end of file,
otherwise the characters stored in `line` and the part left unread. -/
def fgets (size : Nat) (inp : CStr) : Option (CStr × CStr) :=
  match inp with
  | [] => none
  | _ :: _ => some (fgetsAux (size - 1) inp)

/-- The loop of `getFortunes` (loadtest.cc 330-348).  `s` is the record being
collected (`none` for the null pointer), `acc` the array `fortunes` and `num`
the counter `numFortunes`. -/
def getFortunesLoop :
    Nat → CStr → Option CStr → List CStr → Nat → Option CStr × List CStr × Nat
  | 0, _, s, acc, num => (s, acc, num)
  | fuel + 1, inp, s, acc, num =>
    match fgets 500 inp with
    | none => (s, acc, num)
    | some (line, rest) =>
      if line.head? = some (Char.ofNat 37) then
        match s with
        | some rec => getFortunesLoop fuel rest none (acc ++ [rec]) (num + 1)
        | none => getFortunesLoop fuel rest none acc num
      else if (cstr line).length = 500 then
        getFortunesLoop fuel rest s acc num
      else
        let text := replaceFirst LF (Char.ofNat 32) (cstr line)
        match s with
        | some rec => getFortunesLoop fuel rest (some (rec ++ text)) acc num
        | none => getFortunesLoop fuel rest (some text) acc num

/-- The end of `getFortunes` (loadtest.cc 349-353): a record still being
collected is stored. -/
def storeLast : Option CStr × List CStr × Nat → List CStr × Nat
  | (some rec, acc, num) => (acc ++ [rec], num + 1)
  | (none, acc, num) => (acc, num)

/-- Source: `getFortunes` (loadtest.cc 321-355) on the content of the opened
file, with `numFortunes` at `num` when it is called.  Returns the array
`fortunes` and the counter `numFortunes`.  Every `fgets` call on a non-empty
rest consumes a character, so the file length bounds the number of loop
rounds. -/
def getFortunes (num : Nat) (content : CStr) : List CStr × Nat :=
  storeLast (getFortunesLoop (content.length + 1) content none [] num)

/-- Source: `getSomethingToSay` (loadtest.cc 357-363).  `r` is the value
returned by `rand()`.  The array lookup is `none` when the index lies outside
the array, where the C program reads past its end. -/
def getSomethingToSay (RAND_MAX : Nat) (fortunes : List CStr) (numFortunes : Nat) (r : Nat) :
    Option CStr :=
  fortunes[scaleRand RAND_MAX r numFortunes]?

/-! ## Formatting and scanning integers -/

/-- Text printed by a `%d` conversion. -/
def fmtInt (x : Int) : CStr := (toString x).toList

/-- White space as skipped by `sscanf`: space, tab, line feed, vertical tab,
form feed, carriage return. -/
def isSpace (c : Char) : Bool := c.toNat = 32 || (9 ≤ c.toNat && c.toNat ≤ 13)

/-- Value of a decimal digit. -/
def digitVal (c : Char) : Option Nat :=
  if 48 ≤ c.toNat ∧ c.toNat ≤ 57 then some (c.toNat - 48) else none

/-- Value of the longest run of decimal digits at the head of `s`, continuing
from the value `acc` read so far. -/
def scanDigits : CStr → Nat → Nat
  | [], acc => acc
  | c :: cs, acc =>
    match digitVal c with
    | some d => scanDigits cs (10 * acc + d)
    | none => acc

/-- An unsigned decimal number at the head of `s`; `none` when `s` does not
start with a digit. -/
def scanUnsigned (s : CStr) : Option Nat :=
  match s with
  | [] => none
  | c :: _ => if (digitVal c).isSome then some (scanDigits s 0) else none

/-- The number a `%d` conversion reads at the head of `s`: white space is
skipped, then an optional sign and a non-empty run of digits are read.  `none`
when the text does not start that way. -/
def scanInt (s : CStr) : Option Int :=
  match s.dropWhile isSpace with
  | [] => none
  | c :: cs =>
    if c.toNat = 45 then (scanUnsigned cs).map (fun n => -(n : Int))
    else if c.toNat = 43 then (scanUnsigned cs).map (fun n => (n : Int))
    else (scanUnsigned (c :: cs)).map (fun n => (n : Int))

/-- The `int` that the `%d` conversion of `sscanf(string, "%d\t", &timeStamp)`
stores, as glibc computes it: the number read is converted as by `strtol`,
which returns the nearest end of the range of `long` for a number outside it,
and the `long` is then converted to `int`.  `none` when the conversion fails
and nothing is stored. -/
def sscanfInt (P : Platform) (s : CStr) : Option Int :=
  (scanInt s).map (fun v => wrap32 (clampLong P v))

/-! ## Program state -/

/-- Source: `enum STATUS` (loadtest.cc 51). -/
inductive STATUS where
  | CONNECTING
  | CONNECTED
  | DISCONNECTED
deriving DecidableEq, Repr

open STATUS

/-- The global variables of the program (loadtest.cc 53-63, 90-99, 318-319).
`thePlace` is set before the main loop starts and only cleared on exit, so it
is not part of the record. -/
structure Globals where
  waitTime : Int
  loopCount : Int
  msgSize : Int
  roomCopy : Int
  maxLag : Int
  roomUrl : CStr
  homeUrl : CStr
  avatarFile : CStr
  fortuneFile : CStr
  maxLagErr : Bool
  talkDelay : Int
  communityName : CStr
  myName : CStr
  myPassword : CStr
  status : STATUS
  timerEventOccurred : Bool
  hasNavigated : Bool
  msgText : Option CStr
  /-- the number of bytes allocated for `msgBuff` -/
  msgBuff : Nat
  fortunes : List CStr
  numFortunes : Nat
deriving DecidableEq

/-- The initial values of the globals. -/
def Globals.initial : Globals where
  waitTime := 10
  loopCount := 10
  msgSize := 25
  roomCopy := 0
  maxLag := 5
  roomUrl := []
  homeUrl := []
  avatarFile := "avs/av1.gif".toList
  fortuneFile := "zippy".toList
  maxLagErr := false
  talkDelay := 5
  communityName := []
  myName := []
  myPassword := []
  status := DISCONNECTED
  timerEventOccurred := false
  hasNavigated := false
  msgText := none
  msgBuff := 0
  fortunes := []
  numFortunes := 0

/-- A call into the SDK or the C library that the outside world can observe. -/
inductive Action where
  /-- `ubqDisplayError(TITLE, ...)` with the formatted text -/
  | displayError (text : CStr)
  /-- `fprintf(stderr, ...)` with the formatted text -/
  | stderr (text : CStr)
  /-- `thePlace->signOn(theConnection, fun, myPassword)` -/
  | signOn (name password : CStr)
  /-- `alarm(waitTime)` in `setTimer` -/
  | alarm (seconds : Int)
  /-- `thePlace->navigate(roomUrl, "", &position, placeExt)`; `copy` is the
  value given to `placeExt.set` -/
  | navigate (url : CStr) (x y : Nat) (copy : Int)
  /-- `open(avatarFile, O_RDONLY)` -/
  | openAvatar (file : CStr)
  /-- `thePlace->getMyself()->setFace(face)` with a face of `size` bytes -/
  | setFace (size : Int)
  /-- `thePlace->whisper(myself, msgBuff, ...)` and the code it returned -/
  | whisper (text : CStr) (rc : Int)
  /-- `thePlace->getMyself()->move(room, position, 1)` -/
  | move (x y : Nat)
  /-- `thePlace->send(VP_SEND_CHAT, text, ...)` -/
  | send (text : CStr)
deriving DecidableEq, Repr

/-- How the process ended. -/
inductive Ending where
  /-- `ubqDoExit(code)` -/
  | exited (code : Int)
  /-- a failed `ubqAssert` on a platform where it aborts -/
  | aborted
  /-- an access outside an array or a buffer: the behaviour of the program is
  undefined from here on and the run is not followed further -/
  | faulted
deriving DecidableEq, Repr

/-- Result of running one handler: the globals it leaves, the calls it made, and
the way it ended the process (`none` when it returned to its caller). -/
structure StepResult where
  g : Globals
  acts : List Action
  ending : Option Ending

/-- Source: `setTimer` (loadtest.cc 145-150). -/
def setTimer (g : Globals) : Globals × List Action :=
  ({ g with timerEventOccurred := false }, [Action.alarm g.waitTime])

/-- Source: `timerEvent` (loadtest.cc 136-140), called with `SIGALRM`. -/
def timerEvent (g : Globals) : Globals := { g with timerEventOccurred := true }

/-! ## Callbacks of the connection and of the place -/

/-- One attribute of the connection: its id and its string value. -/
structure Attr where
  id : Nat
  value : CStr

/-- Body of the attribute loop of `Connection::connected` (loadtest.cc
166-179) for one attribute. -/
def attrStep (P : Platform) (ga : Globals × List Action) (a : Attr) : Globals × List Action :=
  if a.id = P.VP_ATTR_COMM_NAME then
    (ga.1, ga.2 ++ [Action.stderr ("Community: ".toList ++ a.value ++ [LF])])
  else if a.id = P.VP_ATTR_LOBBY_URL then
    ({ ga.1 with homeUrl := a.value },
      ga.2 ++ [Action.stderr ("Lobby URL: ".toList ++ a.value ++ [LF])])
  else ga

/-- Source: `Connection::connected` (loadtest.cc 155-180).  `rc` is the code
returned by `signOn`, `attrs` the list returned by `getAttributes()`. -/
def Connection.connected (P : Platform) (g : Globals) (rc : Int) (attrs : List Attr) :
    StepResult :=
  if P.assertAborts && g.status != CONNECTING then ⟨g, [], some Ending.aborted⟩
  else
    let a0 := [Action.signOn g.myName g.myPassword]
    let g1 := if rc ≠ P.VP_OK then { g with status := DISCONNECTED } else g
    let a1 := if rc ≠ P.VP_OK then
        a0 ++ [Action.displayError ("cannot sign-on (".toList ++ fmtInt rc ++ ")".toList)]
      else a0
    let ga := attrs.foldl (attrStep P) (g1, a1)
    ⟨ga.1, ga.2, none⟩

/-- Source: `Connection::disconnecting` (loadtest.cc 182-187). -/
def Connection.disconnecting (g : Globals) (reason : Int) : StepResult :=
  ⟨{ g with status := DISCONNECTED },
   if reason ≠ 0 then
     [Action.displayError ("disconnected (".toList ++ fmtInt reason ++ ")".toList)]
   else [],
   none⟩

/-- Source: `ClientPlace::connected` (loadtest.cc 197-201). -/
def ClientPlace.connected (g : Globals) : StepResult :=
  let ga := setTimer { g with status := CONNECTED }
  ⟨ga.1, ga.2, none⟩

/-- Source: `ClientPlace::disconnecting` (loadtest.cc 203-208); the duration
argument is not used. -/
def ClientPlace.disconnecting (g : Globals) (reason : Int) (_duration : Nat) : StepResult :=
  ⟨{ g with status := DISCONNECTED },
   if reason ≠ 0 then
     [Action.displayError
       (g.myName ++ " signed off (".toList ++ fmtInt reason ++ ")".toList)]
   else [],
   none⟩

/-- Source: `ClientPlace::navigated` (loadtest.cc 213-226).  `r1` and `r2` are
the values the two `rand()` calls return. -/
def ClientPlace.navigated (P : Platform) (g : Globals) (reason : Int) (r1 r2 : Nat) :
    StepResult :=
  if reason = P.VP_ROOM_IS_FULL then
    let x := R_POS P.RAND_MAX r1
    let y := R_POS P.RAND_MAX r2
    let g1 := { g with roomCopy := wrap32 (g.roomCopy + 1) }
    ⟨g1, [Action.navigate g1.roomUrl x y g1.roomCopy], none⟩
  else ⟨g, [], none⟩

/-- What `ClientPlace::whispered` receives and reads from its surroundings. -/
structure Whisper where
  /-- `whisperer.getId()` -/
  whispererId : Nat
  /-- `whisperer.getName()` -/
  whispererName : CStr
  /-- the text of the whisper -/
  string : CStr
  /-- `getMyself()->getId()` -/
  myId : Nat
  /-- the value returned by `time(0)` -/
  now : Int
  /-- the text `strftime` writes for the local time -/
  dt : CStr
  /-- what the variable `timeStamp` holds before `sscanf` stores into it: the
  variable is not initialised, so this is whatever its place on the stack held -/
  uninit : Int

/-- The text `sprintf(msg, "%s - %s - LAG %d seconds", dt, myName, timeStamp)`
builds (loadtest.cc 247); `%d` prints the `time_t` as an `int`. -/
def lagReport (g : Globals) (w : Whisper) (timeStamp : Int) : CStr :=
  w.dt ++ " - ".toList ++ g.myName ++ " - LAG ".toList ++ fmtInt (wrap32 timeStamp)
    ++ " seconds".toList

/-- Source: `ClientPlace::whispered` (loadtest.cc 231-258).  The report is
written into `char msg[200]`: a text of 200 characters or more does not fit
with its NUL and the `sprintf` writes past the array. -/
def ClientPlace.whispered (P : Platform) (g : Globals) (w : Whisper) : StepResult :=
  if w.whispererId = w.myId then
    let stored := match sscanfInt P w.string with
      | some v => storeInt P w.uninit v
      | none => w.uninit
    let timeStamp := wrapLong P (w.now - stored)
    if timeStamp > g.maxLag then
      let msg := lagReport g w timeStamp
      if 200 ≤ msg.length then ⟨g, [], some Ending.faulted⟩
      else if g.maxLagErr then ⟨g, [Action.stderr (msg ++ [LF])], none⟩
      else ⟨g, [Action.send msg], none⟩
    else ⟨g, [], none⟩
  else
    ⟨g, [Action.send (w.whispererName ++ " said: ".toList ++ w.string)], none⟩

/-! ## The timer handler of `main` -/

/-- Results of the file operations of the avatar block. -/
structure AvatarEnv where
  /-- `open(avatarFile, O_RDONLY)` -/
  fd : Int
  /-- `lseek(a, 0, SEEK_END)` -/
  size : Int
  /-- whether `malloc(s)` returned a buffer -/
  mallocOk : Bool
  /-- `read(a, buff, s)` -/
  nread : Int

/-- What one run of the timer handler reads from its surroundings. -/
structure TickEnv where
  avatar : AvatarEnv
  /-- `time(0)` -/
  now : Int
  /-- `ubqGetCurrTimeStr()` -/
  timeStr : CStr
  /-- the code `whisper` returns -/
  whisperRc : Int
  /-- the values of the `rand()` calls for the new position -/
  randX : Nat
  randY : Nat
  /-- the value of the `rand()` call in `getSomethingToSay` -/
  randQ : Nat

/-- The avatar block (loadtest.cc 439-453). -/
def putOnAvatar (g : Globals) (av : AvatarEnv) : List Action :=
  Action.openAvatar g.avatarFile ::
    (if av.fd > -1 ∧ av.mallocOk = true ∧ av.nread = av.size then [Action.setFace av.size]
     else [])

/-- The room-entry block (loadtest.cc 421-454), run when `hasNavigated` is
false. -/
def roomEntry (g : Globals) (av : AvatarEnv) : Globals × List Action :=
  if g.hasNavigated then (g, [])
  else
    let g1 := { g with hasNavigated := true }
    let g2 := if g1.roomUrl.isEmpty then { g1 with roomUrl := g1.homeUrl } else g1
    (g2, Action.navigate g2.roomUrl 500 500 1 :: putOnAvatar g2 av)

/-- The text `sprintf(msgBuff, "%d\t%s\t%s", ...)` builds (loadtest.cc 460);
`%d` prints the `time_t` as an `int`. -/
def probeMessage (g : Globals) (env : TickEnv) : CStr :=
  fmtInt (wrap32 env.now) ++ [TAB] ++ env.timeStr ++ [TAB] ++ showStr g.msgText

/-- The babbling block (loadtest.cc 480-483).  `getSomethingToSay` reads the
array without a check: when the index lies outside the array the text pointer
handed to `send` is read from outside the array and dereferenced. -/
def babble (P : Platform) (g : Globals) (randQ : Nat) : StepResult :=
  let g1 := { g with talkDelay := wrap32 (g.talkDelay - 1) }
  if g.talkDelay = 0 then
    match getSomethingToSay P.RAND_MAX g1.fortunes g1.numFortunes randQ with
    | some text => ⟨{ g1 with talkDelay := 5 }, [Action.send text], none⟩
    | none => ⟨{ g1 with talkDelay := 5 }, [], some Ending.faulted⟩
  else ⟨g1, [], none⟩

/-- Source: the timer handler in the loop of `main` (loadtest.cc 419-487).
The probe message is written into `msgBuff`: a text that does not fit with its
NUL makes the `sprintf` write past the buffer. -/
def timerTick (P : Platform) (g : Globals) (env : TickEnv) : StepResult :=
  let ge := roomEntry g env.avatar
  let g1 := { ge.1 with loopCount := wrap32 (ge.1.loopCount - 1) }
  if ge.1.loopCount = 0 then ⟨g1, ge.2, some (Ending.exited 0)⟩
  else if P.assertAborts && g1.status != CONNECTED then ⟨g1, ge.2, some Ending.aborted⟩
  else if g1.msgBuff ≤ (probeMessage g1 env).length then ⟨g1, ge.2, some Ending.faulted⟩
  else
    let a1 := ge.2 ++ [Action.whisper (probeMessage g1 env) env.whisperRc]
    if env.whisperRc ≠ P.VP_OK then
      ⟨g1, a1 ++ [Action.displayError
          ("Failed to whisper to myself (".toList ++ fmtInt env.whisperRc ++ ")".toList)],
        some (Ending.exited 1)⟩
    else
      let a2 := a1 ++ [Action.move (R_POS P.RAND_MAX env.randX) (R_POS P.RAND_MAX env.randY)]
      let gb := babble P g1 env.randQ
      match gb.ending with
      | some x => ⟨gb.g, a2 ++ gb.acts, some x⟩
      | none =>
        let gt := setTimer gb.g
        ⟨gt.1, a2 ++ gb.acts ++ gt.2, none⟩

/-! ## The main loop -/

/-- Something that happens while `main` waits in `select`: the alarm signal or
a callback made by `analyzeMasks`. -/
inductive Event where
  /-- delivery of `SIGALRM` to `timerEvent` -/
  | sigalrm
  /-- `Connection::connected` with the code `signOn` returns and the attributes -/
  | connConnected (rc : Int) (attrs : List Attr)
  /-- `Connection::disconnecting(reason)` -/
  | connDisconnecting (reason : Int)
  /-- `ClientPlace::connected` -/
  | placeConnected
  /-- `ClientPlace::disconnecting(reason, duration)` -/
  | placeDisconnecting (reason : Int) (duration : Nat)
  /-- `ClientPlace::navigated` with the two `rand()` values it may use -/
  | navigated (reason : Int) (r1 r2 : Nat)
  /-- `ClientPlace::whispered` -/
  | whispered (w : Whisper)

/-- Dispatch of one event to its handler. -/
def handleEvent (P : Platform) (g : Globals) : Event → StepResult
  | Event.sigalrm => ⟨timerEvent g, [], none⟩
  | Event.connConnected rc attrs => Connection.connected P g rc attrs
  | Event.connDisconnecting reason => Connection.disconnecting g reason
  | Event.placeConnected => ClientPlace.connected g
  | Event.placeDisconnecting reason duration => ClientPlace.disconnecting g reason duration
  | Event.navigated reason r1 r2 => ClientPlace.navigated P g reason r1 r2
  | Event.whispered w => ClientPlace.whispered P g w

/-- One line of the record of a run. -/
inductive Entry where
  /-- the start of `main`, before the loop -/
  | startup (acts : List Action)
  /-- a run of the timer handler: the calls it made and the globals it left -/
  | tick (acts : List Action) (g : Globals)
  /-- a handled event: the calls it made and the globals it left -/
  | event (acts : List Action) (g : Globals)

/-- A run of the program: its record, the globals at its end, and how the
process ended (`none` while it is still waiting for events). -/
structure Run where
  trace : List Entry
  g : Globals
  ending : Option Ending

/-- The events of one round of the loop, handled in order; stops at the first
handler that ends the process. -/
def runEvents (P : Platform) : Globals → List Event → Run
  | g, [] => ⟨[], g, none⟩
  | g, e :: es =>
    let r := handleEvent P g e
    match r.ending with
    | some x => ⟨[Entry.event r.acts r.g], r.g, some x⟩
    | none =>
      let rest := runEvents P r.g es
      ⟨Entry.event r.acts r.g :: rest.trace, rest.g, rest.ending⟩

/-- One round of the loop of `main`: what the timer handler reads if it runs,
and the events that arrive while the round waits in `select`. -/
structure Round where
  tick : TickEnv
  events : List Event

/-- One round of the loop of `main` (loadtest.cc 418-501): the timer handler
when `timerEventOccurred` is set, then the events of the round.  The round
stops where a handler ends the process. -/
def runRound (P : Platform) (g : Globals) (rd : Round) : Run :=
  if g.timerEventOccurred then
    let t := timerTick P g rd.tick
    match t.ending with
    | some x => ⟨[Entry.tick t.acts t.g], t.g, some x⟩
    | none =>
      let ev := runEvents P t.g rd.events
      ⟨Entry.tick t.acts t.g :: ev.trace, ev.g, ev.ending⟩
  else runEvents P g rd.events

/-- Source: the loop of `main` and the exit that follows it (loadtest.cc
417-504).  The loop is left with `ubqDoExit(1)` once `status` is
`DISCONNECTED`; the run is still going when the rounds are used up. -/
def mainLoop (P : Platform) : Globals → List Round → Run
  | g, [] => if g.status = DISCONNECTED then ⟨[], g, some (Ending.exited 1)⟩ else ⟨[], g, none⟩
  | g, rd :: rds =>
    if g.status = DISCONNECTED then ⟨[], g, some (Ending.exited 1)⟩
    else
      let r := runRound P g rd
      match r.ending with
      | some x => ⟨r.trace, r.g, some x⟩
      | none =>
        let rest := mainLoop P r.g rds
        ⟨r.trace ++ rest.trace, rest.g, rest.ending⟩

/-- A command line option as `getopt` returns it; numeric arguments are the
values `atoi` returns for them. -/
inductive Opt where
  | a (file : CStr)
  | d (lag : Int)
  | f (file : CStr)
  | l (loops : Int)
  | p (password : CStr)
  | r (url : CStr)
  | s (size : Int)
  | t (seconds : Int)
  | u (name : CStr)
  | L
  | unknown

/-- Body of the option loop of `parseArgs` (loadtest.cc 275-310). -/
def parseOpt (g : Globals) : Opt → Globals
  | Opt.a file => { g with avatarFile := file }
  | Opt.d lag => { g with maxLag := lag }
  | Opt.f file => { g with fortuneFile := file }
  | Opt.l loops => { g with loopCount := loops }
  | Opt.p password => { g with myPassword := password }
  | Opt.r url => { g with roomUrl := url }
  | Opt.s size => { g with msgSize := size }
  | Opt.t seconds => { g with waitTime := seconds }
  | Opt.u name => { g with myName := name }
  | Opt.L => { g with maxLagErr := true }
  | Opt.unknown => g

/-- Source: `parseArgs` (loadtest.cc 259-313). -/
def parseArgs (g : Globals) (opts : List Opt) (community : CStr) : Globals :=
  { opts.foldl parseOpt g with communityName := community }

/-- What `main` reads from its surroundings. -/
structure MainEnv where
  opts : List Opt
  community : CStr
  /-- content of the fortune file; `none` when `fopen` cannot open it -/
  fortuneText : Option CStr
  /-- the code `vpInitialize(0)` returns -/
  vpInitRc : Int
  /-- the code `theConnection.connect(communityName)` returns -/
  connectRc : Int
  rounds : List Round

/-- The globals after the set-up part of `main` (loadtest.cc 373-389), for the
fortune file content `text`.  Both allocations are taken to succeed. -/
def startup (P : Platform) (env : MainEnv) (text : CStr) : Globals :=
  let g0 := parseArgs Globals.initial env.opts env.community
  let g1 := { g0 with
    fortunes := (getFortunes g0.numFortunes text).1
    numFortunes := (getFortunes g0.numFortunes text).2 }
  { g1 with
    msgText := makeStr (toUlong P g1.msgSize)
    msgBuff := toUlong P (wrap32 (30 + g1.msgSize)) }

/-- The line `main` displays before it connects (loadtest.cc 391). -/
def banner (g : Globals) : Action :=
  Action.displayError (g.myName ++ ", loop interval = ".toList ++ fmtInt g.waitTime
    ++ ", loops = ".toList ++ fmtInt g.loopCount ++ ", msg size = ".toList ++ fmtInt g.msgSize)

/-- Source: `main` (loadtest.cc 368-505).  `getFortunes` hands the result of
`fopen` to `fgets` without a check, so a fortune file that cannot be opened
ends the run in `getFortunes`. -/
def main (P : Platform) (env : MainEnv) : Run :=
  match env.fortuneText with
  | none => ⟨[], parseArgs Globals.initial env.opts env.community, some Ending.faulted⟩
  | some text =>
    let g := startup P env text
    if env.vpInitRc ≠ P.VP_OK then
      ⟨[Entry.startup [banner g,
          Action.displayError ("cannot initialize(".toList ++ fmtInt env.vpInitRc ++ ")".toList)]],
        g, some (Ending.exited 1)⟩
    else
      let g1 := { g with status := CONNECTING }
      if env.connectRc ≠ P.VP_OK then
        ⟨[Entry.startup [banner g,
            Action.displayError ("failed connecting to ".toList ++ g.communityName)]],
          g1, some (Ending.exited 1)⟩
      else
        let r := mainLoop P g1 env.rounds
        ⟨Entry.startup [banner g] :: r.trace, r.g, r.ending⟩

/-! ## Reading the record of a run -/

/-- A run of the timer handler, as the calls it made and the globals it left;
`none` for other entries. -/
def Entry.asTick : Entry → Option (List Action × Globals)
  | Entry.tick acts g => some (acts, g)
  | _ => none

/-- The handled timer ticks of a run, in order: the calls each made and the
globals it left. -/
def tickEntries (tr : List Entry) : List (List Action × Globals) := tr.filterMap Entry.asTick

/-- The calls made by the handled timer ticks of a run, tick by tick. -/
def ticksOf (tr : List Entry) : List (List Action) := (tickEntries tr).map Prod.fst

/-- Whether a call is a whisper. -/
def Action.isWhisper : Action → Bool
  | Action.whisper _ _ => true
  | _ => false

/-- Whether a call is a whisper that returned the given success code. -/
def Action.isWhisperOk (ok : Int) : Action → Bool
  | Action.whisper _ rc => rc = ok
  | _ => false

/-- Whether a call is a navigation request. -/
def Action.isNavigate : Action → Bool
  | Action.navigate _ _ _ _ => true
  | _ => false

/-- Whether a call opens the avatar file. -/
def Action.isOpenAvatar : Action → Bool
  | Action.openAvatar _ => true
  | _ => false

/-- Whether a call re-arms the timer. -/
def Action.isAlarm : Action → Bool
  | Action.alarm _ => true
  | _ => false

/-- Whether a call sends chat text to the room. -/
def Action.isSend : Action → Bool
  | Action.send _ => true
  | _ => false

/-- The replica index of a navigation request. -/
def Action.copyIndex : Action → Option Int
  | Action.navigate _ _ _ copy => some copy
  | _ => none

/-- Number of whispers among some calls. -/
def whispers (acts : List Action) : Nat := acts.countP Action.isWhisper

/-- Whether the calls of a tick begin with the room-entry block: the
navigation to position (500,500) with replica index 1, then the opening of the
avatar file. -/
def startsWithRoomEntry : List Action → Bool
  | Action.navigate _ x y copy :: Action.openAvatar _ :: _ => x = 500 && y = 500 && copy = 1
  | _ => false

/-- Number of navigation requests and of avatar file openings among some
calls. -/
def entryCalls (acts : List Action) : Nat × Nat :=
  (acts.countP Action.isNavigate, acts.countP Action.isOpenAvatar)

/-- The counters and the latch of the timer handler. -/
def counters (g : Globals) : Int × Int × Bool := (g.loopCount, g.talkDelay, g.hasNavigated)

/-- The globals that are set before the loop of `main` starts and read, but
never written, inside it. -/
def settings (g : Globals) : CStr × Int × Bool × Option CStr × Nat × List CStr × Nat :=
  (g.myName, g.maxLag, g.maxLagErr, g.msgText, g.msgBuff, g.fortunes, g.numFortunes)

/-- The replica indices of all navigation requests of a run, in order. -/
def copyIndices (tr : List Entry) : List Int :=
  (tr.map (fun e => match e with
    | Entry.startup acts => acts
    | Entry.tick acts _ => acts
    | Entry.event acts _ => acts)).flatten.filterMap Action.copyIndex

/-- The status after each entry of a run. -/
def statusesOf (tr : List Entry) : List STATUS :=
  tr.filterMap (fun e => match e with
    | Entry.startup _ => none
    | Entry.tick _ g => some g.status
    | Entry.event _ g => some g.status)

/-- Whether an event is one of the two `disconnecting` callbacks. -/
def Event.isDisconnecting : Event → Bool
  | Event.connDisconnecting _ => true
  | Event.placeDisconnecting _ _ => true
  | _ => false

/-- Whether an event is the callback `ClientPlace::connected`. -/
def Event.isPlaceConnected : Event → Bool
  | Event.placeConnected => true
  | _ => false

/-- Events that leave a connected session connected: the alarm signal,
`ClientPlace::connected`, navigation results and whispers. -/
def Event.keepsSession : Event → Bool
  | Event.sigalrm => true
  | Event.placeConnected => true
  | Event.navigated _ _ _ => true
  | Event.whispered _ => true
  | _ => false

/-- The quote lookup of a tick stays inside the fortune array: the index that
`getSomethingToSay` computes from the value of `rand()` is below the number of
stored fortunes. -/
def quoteInRange (P : Platform) (g : Globals) (env : TickEnv) : Prop :=
  (getSomethingToSay P.RAND_MAX g.fortunes g.numFortunes env.randQ).isSome = true

instance (P : Platform) (g : Globals) (env : TickEnv) : Decidable (quoteInRange P g env) := by
  unfold quoteInRange; infer_instance

/-- The rounds of a run in which every whisper succeeds and no event takes the
session out of the connected state. -/
def quietSession (P : Platform) (rds : List Round) : Prop :=
  ∀ rd ∈ rds, rd.tick.whisperRc = P.VP_OK ∧ ∀ e ∈ rd.events, e.keepsSession = true

instance (P : Platform) (rds : List Round) : Decidable (quietSession P rds) := by
  unfold quietSession; infer_instance

/-- The timer handler stays inside its buffer and the fortune array: the probe
message fits `msgBuff` with its NUL and the quote lookup stays inside the
array. -/
def tickInBounds (P : Platform) (g : Globals) (env : TickEnv) : Prop :=
  (probeMessage g env).length < g.msgBuff ∧ quoteInRange P g env

instance (P : Platform) (g : Globals) (env : TickEnv) : Decidable (tickInBounds P g env) := by
  unfold tickInBounds; infer_instance

/-- The handler of an event stays inside its buffer: a whisper does not make
`ClientPlace::whispered` write a lag report that is too long for `msg`. -/
def eventInBounds (P : Platform) (g : Globals) : Event → Prop
  | Event.whispered w => (ClientPlace.whispered P g w).ending = none
  | _ => True

instance (P : Platform) (g : Globals) (e : Event) : Decidable (eventInBounds P g e) := by
  cases e <;> unfold eventInBounds <;> infer_instance

/-- The rounds of a run in which the program, with the settings of `g`, stays
inside its buffers and the fortune array. -/
def inBounds (P : Platform) (g : Globals) (rds : List Round) : Prop :=
  ∀ rd ∈ rds, tickInBounds P g rd.tick ∧ ∀ e ∈ rd.events, eventInBounds P g e

instance (P : Platform) (g : Globals) (rds : List Round) : Decidable (inBounds P g rds) := by
  unfold inBounds; infer_instance

/-- The status changes named by the life cycle `Connecting → Connected →
Disconnected`, and no change at all. -/
def lifecycleStep (a b : STATUS) : Prop :=
  a = b ∨ (a = CONNECTING ∧ b = CONNECTED) ∨ (a = CONNECTING ∧ b = DISCONNECTED)
    ∨ (a = CONNECTED ∧ b = DISCONNECTED)

instance (a b : STATUS) : Decidable (lifecycleStep a b) := by
  unfold lifecycleStep; infer_instance

/-! ## The fortune file as the specification describes it -/

/-- The lines of a text, each with the line feed that ends it; only the last
line may lack one. -/
def splitLines : CStr → List CStr
  | [] => []
  | c :: cs =>
    if c = LF then [c] :: splitLines cs
    else
      match splitLines cs with
      | [] => [[c]]
      | l :: ls => (c :: l) :: ls

/-- A line break becomes a space; other characters stay. -/
def collapseBreak (c : Char) : Char := if c = LF then Char.ofNat 32 else c

/-- The records of a text as the specification describes them, for a given
notion of separator line: the lines are split at the separator lines, a group
without lines is no record, and the lines of each group are joined with every
line break replaced by a space. -/
def specRecords (sep : CStr → Bool) (text : CStr) : List CStr :=
  (((splitLines text).splitOnP sep).filter (fun grp => !grp.isEmpty)).map
    (fun grp => grp.flatten.map collapseBreak)

/-- The records of `specRecords` when a record `s` is already being collected and
the groups `groups` of lines are still to come: `s` continues with the first
group. -/
def pendingRecords (s : Option CStr) (groups : List (List CStr)) : List CStr :=
  match groups with
  | [] => s.toList
  | g0 :: gs =>
    (if s.isNone && g0.isEmpty then [] else [s.getD [] ++ g0.flatten.map collapseBreak])
      ++ (gs.filter (fun grp => !grp.isEmpty)).map (fun grp => grp.flatten.map collapseBreak)

/-- A line whose sole content is the delimiter `%`. -/
def isPercentAlone (line : CStr) : Bool :=
  line = [Char.ofNat 37, LF] || line = [Char.ofNat 37]

/-- A line whose first character is the delimiter `%`. -/
def beginsWithPercent (line : CStr) : Bool := line.head? = some (Char.ofNat 37)

/-! ## Sample inputs -/

/-- A 32-bit Linux platform with glibc (ILP32, little-endian): success is 0,
`RAND_MAX` is `2^31 - 1`, assertions abort.  The code for a full room and the
attribute ids are placeholders. -/
def linux : Platform where
  VP_OK := 0
  VP_ROOM_IS_FULL := 7
  VP_ATTR_COMM_NAME := 1
  VP_ATTR_LOBBY_URL := 2
  RAND_MAX := 2147483647
  assertAborts := true
  lp64 := false
  bigEndian := false

/-- The same platform with 64-bit `long` and `time_t` (LP64). -/
def linux64 : Platform := { linux with lp64 := true }

/-- A timer tick at time `now` with no avatar file, a successful whisper and
fixed random numbers. -/
def sampleTick (now : Int) : TickEnv where
  avatar := ⟨-1, 0, false, 0⟩
  now := now
  timeStr := "12:00:00".toList
  whisperRc := 0
  randX := 1000000
  randY := 2000000
  randQ := 3000000

/-- The round in which the session gets connected and the first alarm fires. -/
def connectRound : Round :=
  ⟨sampleTick 999, [Event.connConnected 0 [], Event.placeConnected, Event.sigalrm]⟩

/-- A session started with `-l loops -s 10 -r room` and the given rounds. -/
def sampleRun (loops : Int) (rounds : List Round) : MainEnv where
  opts := [Opt.l loops, Opt.s 10, Opt.r "room".toList, Opt.u "probe".toList]
  community := "community".toList
  fortuneText := some "one\n%\ntwo\n%\nthree\n".toList
  vpInitRc := 0
  connectRc := 0
  rounds := connectRound :: rounds

/-- Rounds in which `k` alarms fire one after the other and nothing else
happens, the first at time 1000. -/
def quietRounds (k : Nat) : List Round :=
  (List.range k).map (fun i => ⟨sampleTick (1000 + i), [Event.sigalrm]⟩)

/-- The echo of a probe sent at time 1000, handled at time 1007. -/
def sampleEcho : Whisper where
  whispererId := 42
  whispererName := "probe".toList
  string := "1000\t12:00:00\tabcdefghi".toList
  myId := 42
  now := 1007
  dt := "20010801 12:00:07".toList
  uninit := 0

/-- The globals of the sample session when `main` enters its loop. -/
def connectingState : Globals :=
  { startup linux (sampleRun 3 []) "one\n%\ntwo\n%\nthree\n".toList with status := CONNECTING }

/-- The globals of the sample session after the round that connected it, with
the first alarm delivered. -/
def enteredState : Globals := (mainLoop linux connectingState [connectRound]).g

/-! ## Theorems -/

theorem wrap32_of_inInt32 (x : Int) (h : inInt32 x) : wrap32 x = x := by
  unfold inInt32 at h
  unfold wrap32
  omega

/-- C6: with message size 10 the filler made by `makeStr` is the nine
characters `abcdefghi`, followed by the NUL that was written over the tenth,
and it is this nine character text that becomes the third field of the first
probe message of a session started with `-s 10`. -/
theorem makeStr_ten_gives_nine_characters :
    makeStr 10 = some ("abcdefghi".toList ++ [NUL]) ∧
    showStr (makeStr 10) = "abcdefghi".toList ∧
    (showStr (makeStr 10)).length = 9 ∧
    (ticksOf (main linux (sampleRun 3 (quietRounds 1))).trace).map
        (fun acts => acts.filter Action.isWhisper)
      = [[Action.whisper "1000\t12:00:00\tabcdefghi".toList 0]] := by
  decide

/-- The rounding of `rnd24` on known single precision values: `2^24 + 1`
is a tie and goes to the even neighbour `2^24`, `2^24 + 3` goes up to
`2^24 + 4`, `2^31 - 1` rounds to `2^31`, and `1/3` and `1/10` become the
floats `0x3EAAAAAB` and `0x3DCCCCCD`. -/
theorem rnd24_examples :
    rnd24 16777217 1 = ⟨16777216, 1⟩ ∧ rnd24 16777219 1 = ⟨16777220, 1⟩ ∧
    rnd24 2147483647 1 = ⟨2147483648, 1⟩ ∧
    rnd24 1 3 = ⟨11184811, 33554432⟩ ∧ rnd24 1 10 = ⟨13421773, 134217728⟩ := by
  decide

/-- C8: when `rand()` returns `RAND_MAX` the index computed by
`getSomethingToSay` equals the number of fortunes, one past the last element,
so the lookup leaves the array; shown for 3 fortunes, and the index for 1 and
for 1000 fortunes. -/
theorem getSomethingToSay_index_out_of_range :
    scaleRand 2147483647 2147483647 3 = 3 ∧
    getSomethingToSay 2147483647 ["one".toList, "two".toList, "three".toList] 3 2147483647
      = none ∧
    scaleRand 2147483647 2147483647 1 = 1 ∧
    scaleRand 2147483647 2147483647 1000 = 1000 := by
  decide

/-- A room-full result makes `ClientPlace::navigated` add one to `roomCopy` and
navigate to the same room with the new value. -/
theorem navigated_full_increments (P : Platform) (g : Globals) (r1 r2 : Nat)
    (h : inInt32 (g.roomCopy + 1)) :
    (ClientPlace.navigated P g P.VP_ROOM_IS_FULL r1 r2).acts =
      [Action.navigate g.roomUrl (R_POS P.RAND_MAX r1) (R_POS P.RAND_MAX r2) (g.roomCopy + 1)] ∧
    (ClientPlace.navigated P g P.VP_ROOM_IS_FULL r1 r2).g.roomCopy = g.roomCopy + 1 := by
  simp [ClientPlace.navigated, wrap32_of_inInt32 _ h]

/-- C3: after the initial navigation with replica index 1, two room-full
results in a row lead to retries with the replica indices 1 and 2: the first
retry repeats the index of the initial attempt. -/
theorem first_retry_repeats_replica_index :
    copyIndices (main linux (sampleRun 3
      [⟨sampleTick 1000,
        [Event.navigated 7 11 12, Event.navigated 7 13 14]⟩])).trace = [1, 1, 2] := by
  decide

theorem wrapLong_of_inLong (P : Platform) (x : Int) (h : inLong P x) : wrapLong P x = x := by
  unfold inLong at h
  unfold wrapLong
  cases hp : P.lp64
  · simp only [hp, Bool.false_eq_true, if_false] at h ⊢
    exact wrap32_of_inInt32 x h
  · simp only [hp, if_true] at h ⊢
    unfold wrap64
    omega

/-- Where `time_t` has the width of `int` the store of `sscanf` replaces the
whole variable. -/
theorem storeInt_ilp32 (P : Platform) (old v : Int) (h : P.lp64 = false) :
    storeInt P old v = v := by
  simp [storeInt, h]

set_option maxRecDepth 10000 in
/-- What the model of `ClientPlace::whispered` does outside the conditions of
the theorem above.  On a 64-bit `time_t` the half of `timeStamp` that `sscanf`
does not write takes part in the comparison: with all bits set there, an echo
that is 5 seconds old is reported against a limit of 5.  A user name of 170
characters makes the report 206 characters long, which `msg` cannot hold. -/
theorem whispered_outside_its_conditions :
    (ClientPlace.whispered linux64 connectingState
        { sampleEcho with now := 1005, uninit := -1 }).acts
      = [Action.send "20010801 12:00:07 - probe - LAG 5 seconds".toList] ∧
    (lagReport { connectingState with myName := List.replicate 170 (Char.ofNat 120) }
        sampleEcho 7).length = 206 ∧
    (ClientPlace.whispered linux
        { connectingState with myName := List.replicate 170 (Char.ofNat 120) }
        sampleEcho).ending = some Ending.faulted ∧
    sscanfInt linux "99999999999\t".toList = some 2147483647 := by
  decide

/-- `ClientPlace::whispered` changes no global variable. -/
theorem whispered_g (P : Platform) (g : Globals) (w : Whisper) :
    (ClientPlace.whispered P g w).g = g := by
  simp only [ClientPlace.whispered]
  split_ifs <;> rfl

theorem attrStep_status (P : Platform) (ga : Globals × List Action) (a : Attr) :
    (attrStep P ga a).1.status = ga.1.status := by
  unfold attrStep
  split
  · rfl
  · split <;> rfl

theorem foldl_attrStep_status (P : Platform) (attrs : List Attr) (ga : Globals × List Action) :
    (attrs.foldl (attrStep P) ga).1.status = ga.1.status := by
  induction attrs generalizing ga with
  | nil => rfl
  | cons a as ih => rw [List.foldl_cons, ih, attrStep_status]

/-- The status a handler leaves, for each kind of event. -/
theorem handleEvent_status (P : Platform) (g : Globals) (e : Event) :
    (handleEvent P g e).g.status =
      match e with
      | Event.sigalrm => g.status
      | Event.connConnected rc _ =>
        if (P.assertAborts && g.status != CONNECTING) = true then g.status
        else if rc ≠ P.VP_OK then DISCONNECTED else g.status
      | Event.connDisconnecting _ => DISCONNECTED
      | Event.placeConnected => CONNECTED
      | Event.placeDisconnecting _ _ => DISCONNECTED
      | Event.navigated _ _ _ => g.status
      | Event.whispered _ => g.status := by
  cases e with
  | sigalrm => rfl
  | connConnected rc attrs =>
    simp only [handleEvent, Connection.connected]
    split
    · rfl
    · rw [foldl_attrStep_status]
      split <;> rfl
  | connDisconnecting reason => rfl
  | placeConnected => rfl
  | placeDisconnecting reason duration => rfl
  | navigated reason r1 r2 =>
    simp only [handleEvent, ClientPlace.navigated]
    split <;> rfl
  | whispered w => simp only [handleEvent, whispered_g]

theorem handleEvent_lifecycleStep (P : Platform) (g : Globals) (e : Event)
    (h : e.isPlaceConnected = true → g.status ≠ DISCONNECTED) :
    lifecycleStep g.status (handleEvent P g e).g.status := by
  rw [handleEvent_status]
  unfold lifecycleStep
  cases e with
  | sigalrm => exact Or.inl rfl
  | connConnected rc attrs =>
    dsimp only
    split
    · exact Or.inl rfl
    · split
      · cases hs : g.status <;> simp
      · exact Or.inl rfl
  | connDisconnecting reason => cases hs : g.status <;> simp
  | placeConnected =>
    have h1 := h rfl
    cases hs : g.status <;> simp_all
  | placeDisconnecting reason duration => cases hs : g.status <;> simp
  | navigated reason r1 r2 => exact Or.inl rfl
  | whispered w => exact Or.inl rfl

theorem runEvents_chain (P : Platform) (evs : List Event) (g : Globals)
    (h : ∀ p ∈ List.zip (g.status :: statusesOf (runEvents P g evs).trace) evs,
      p.2.isPlaceConnected = true → p.1 ≠ DISCONNECTED) :
    List.Chain lifecycleStep g.status (statusesOf (runEvents P g evs).trace) := by
  induction evs generalizing g with
  | nil => simp [runEvents, statusesOf]
  | cons e es ih =>
    have hstep : lifecycleStep g.status (handleEvent P g e).g.status := by
      apply handleEvent_lifecycleStep
      intro he
      exact h (g.status, e) (by simp [List.zip_cons_cons]) he
    unfold runEvents at h ⊢
    cases hend : (handleEvent P g e).ending with
    | some x =>
      simp only [hend, statusesOf, List.filterMap_cons, List.filterMap_nil]
      exact List.Chain.cons hstep List.Chain.nil
    | none =>
      simp only [hend, statusesOf, List.filterMap_cons] at h ⊢
      refine List.Chain.cons hstep (ih _ ?_)
      intro p hp hpc
      exact h p (by simp only [List.zip_cons_cons, List.mem_cons]; exact Or.inr hp) hpc

theorem chain_disconnected_stays (l : List STATUS) (a : STATUS)
    (h : List.Chain lifecycleStep a l) (ha : a = DISCONNECTED) :
    ∀ b ∈ l, b = DISCONNECTED := by
  induction l generalizing a with
  | nil => simp
  | cons c cs ih =>
    rw [List.chain_cons] at h
    have hc : c = DISCONNECTED := by
      rcases h.1 with h1 | h1 | h1 | h1
      · rw [← h1, ha]
      · rw [ha] at h1; exact absurd h1.1 (by decide)
      · exact h1.2
      · exact h1.2
    intro b hb
    rcases List.mem_cons.mp hb with rfl | hb
    · exact hc
    · exact ih c h.2 hc b hb

/-- C5, as the code has it: `ClientPlace::connected` sets `CONNECTED` whatever
the status is; for every sequence of events in which that callback does not
arrive while the status is `DISCONNECTED`, each status change is one of
`CONNECTING → CONNECTED`, `CONNECTING → DISCONNECTED` and
`CONNECTED → DISCONNECTED`, and once the status is `DISCONNECTED` every later
status is `DISCONNECTED`. -/
theorem disconnected_terminal_without_reconnect (P : Platform) (g : Globals)
    (evs : List Event)
    (h : ∀ p ∈ List.zip (g.status :: statusesOf (runEvents P g evs).trace) evs,
      p.2.isPlaceConnected = true → p.1 ≠ DISCONNECTED) :
    List.Chain' lifecycleStep (g.status :: statusesOf (runEvents P g evs).trace) ∧
    (∀ pre rest, g.status :: statusesOf (runEvents P g evs).trace
        = pre ++ DISCONNECTED :: rest → ∀ b ∈ rest, b = DISCONNECTED) ∧
    (∀ g1, (handleEvent P g1 Event.placeConnected).g.status = CONNECTED) := by
  have hc := runEvents_chain P evs g h
  refine ⟨hc, ?_, fun _ => rfl⟩
  intro pre rest heq
  have hc1 : List.Chain' lifecycleStep (pre ++ DISCONNECTED :: rest) := by
    rw [← heq]; exact hc
  have hc2 := (List.chain'_split.mp hc1).2
  exact chain_disconnected_stays rest DISCONNECTED hc2 rfl

/-- C5 as stated fails: after a `disconnecting` callback has set
`DISCONNECTED`, the callback `ClientPlace::connected` sets `CONNECTED`. -/
theorem disconnected_left_by_place_connected :
    statusesOf (runEvents linux (main linux (sampleRun 3 [])).g
      [Event.placeDisconnecting 0 0, Event.placeConnected]).trace
      = [DISCONNECTED, CONNECTED] := by
  decide

theorem disconnected_terminal_without_reconnect_witness :
    statusesOf (runEvents linux connectingState
      [Event.placeConnected, Event.connDisconnecting 0, Event.placeDisconnecting 3 0]).trace
      = [CONNECTED, DISCONNECTED, DISCONNECTED] ∧
    List.Chain' lifecycleStep (connectingState.status ::
      statusesOf (runEvents linux connectingState
        [Event.placeConnected, Event.connDisconnecting 0, Event.placeDisconnecting 3 0]).trace) :=
  ⟨by decide,
   (disconnected_terminal_without_reconnect linux connectingState
      [Event.placeConnected, Event.connDisconnecting 0, Event.placeDisconnecting 3 0]
      (by decide)).1⟩

theorem runEvents_nil (P : Platform) (g : Globals) : runEvents P g [] = ⟨[], g, none⟩ := rfl

theorem runEvents_cons_none (P : Platform) (g : Globals) (e : Event) (es : List Event)
    (h : (handleEvent P g e).ending = none) :
    runEvents P g (e :: es) =
      ⟨Entry.event (handleEvent P g e).acts (handleEvent P g e).g ::
          (runEvents P (handleEvent P g e).g es).trace,
        (runEvents P (handleEvent P g e).g es).g,
        (runEvents P (handleEvent P g e).g es).ending⟩ := by
  rw [runEvents]
  simp only [h]

theorem runEvents_cons_some (P : Platform) (g : Globals) (e : Event) (es : List Event)
    (x : Ending) (h : (handleEvent P g e).ending = some x) :
    runEvents P g (e :: es) =
      ⟨[Entry.event (handleEvent P g e).acts (handleEvent P g e).g],
        (handleEvent P g e).g, some x⟩ := by
  rw [runEvents]
  simp only [h]

theorem runEvents_last_disconnecting (P : Platform) (evs : List Event) (g : Globals)
    (e : Event) (hlast : evs.getLast? = some e) (he : e.isDisconnecting = true)
    (hend : (runEvents P g evs).ending = none) :
    (runEvents P g evs).g.status = DISCONNECTED := by
  induction evs generalizing g with
  | nil => simp at hlast
  | cons a as ih =>
    cases hstep : (handleEvent P g a).ending with
    | some x =>
      rw [runEvents_cons_some P g a as x hstep] at hend
      simp at hend
    | none =>
      rw [runEvents_cons_none P g a as hstep] at hend ⊢
      simp only at hend ⊢
      cases as with
      | nil =>
        simp only [List.getLast?_singleton, Option.some.injEq] at hlast
        subst hlast
        rw [runEvents_nil, handleEvent_status]
        cases a <;> simp_all [Event.isDisconnecting]
      | cons b bs =>
        apply ih
        · rw [← hlast, List.getLast?_cons_cons]
        · exact hend

/-- C4, as the code has it: when the last callback of a round is a
`disconnecting` callback, of the connection or of the place and with any
reason, zero included, and the process did not end earlier in that round, the
loop of `main` is left and the process exits with status 1.  A zero reason
only means that no diagnostic is displayed. -/
theorem disconnect_exits_with_status_one (P : Platform) (g : Globals) (rd : Round)
    (rds : List Round) (e : Event)
    (hg : g.status ≠ DISCONNECTED) (hlast : rd.events.getLast? = some e)
    (he : e.isDisconnecting = true) (hround : (runRound P g rd).ending = none) :
    (mainLoop P g (rd :: rds)).ending = some (Ending.exited 1) ∧
    (∀ g1, (Connection.disconnecting g1 0).acts = []) ∧
    (∀ g1 d, (ClientPlace.disconnecting g1 0 d).acts = []) := by
  refine ⟨?_, fun _ => rfl, fun _ _ => rfl⟩
  have hst : (runRound P g rd).g.status = DISCONNECTED := by
    unfold runRound at hround ⊢
    by_cases hflag : g.timerEventOccurred = true
    · simp only [hflag, if_true] at hround ⊢
      cases ht : (timerTick P g rd.tick).ending with
      | some x => simp [ht] at hround
      | none =>
        simp only [ht] at hround ⊢
        exact runEvents_last_disconnecting P rd.events _ e hlast he hround
    · simp only [hflag] at hround ⊢
      exact runEvents_last_disconnecting P rd.events _ e hlast he hround
  rw [mainLoop]
  simp only [if_neg hg, hround]
  cases rds with
  | nil => simp [mainLoop, hst]
  | cons r2 rs => simp [mainLoop, hst]

/-- C4 as stated fails: a session that is disconnected with reason 0, by the
connection or by the place, exits with status 1, not 0. -/
theorem clean_disconnect_exits_with_one :
    (main linux (sampleRun 3 [⟨sampleTick 1000, [Event.connDisconnecting 0]⟩])).ending
      = some (Ending.exited 1) ∧
    (main linux (sampleRun 3 [⟨sampleTick 1000, [Event.placeDisconnecting 0 0]⟩])).ending
      = some (Ending.exited 1) ∧
    (main linux (sampleRun 3 [⟨sampleTick 1000, [Event.connDisconnecting 0]⟩])).ending
      ≠ some (Ending.exited 0) := by
  decide

theorem disconnect_exits_with_status_one_witness :
    (mainLoop linux connectingState
      [⟨sampleTick 1000, [Event.placeConnected, Event.placeDisconnecting 0 0]⟩]).ending
      = some (Ending.exited 1) :=
  (disconnect_exits_with_status_one linux connectingState
    ⟨sampleTick 1000, [Event.placeConnected, Event.placeDisconnecting 0 0]⟩ []
    (Event.placeDisconnecting 0 0) (by decide) rfl rfl (by decide)).1

/-! ### The timer handler, step by step -/

theorem putOnAvatar_any_isSend (g : Globals) (av : AvatarEnv) :
    (putOnAvatar g av).any Action.isSend = false := by
  unfold putOnAvatar
  split <;> simp [Action.isSend]

theorem putOnAvatar_any_isWhisper (g : Globals) (av : AvatarEnv) :
    (putOnAvatar g av).any Action.isWhisper = false := by
  unfold putOnAvatar
  split <;> simp [Action.isWhisper]

theorem roomEntry_fields (g : Globals) (av : AvatarEnv) :
    (roomEntry g av).1.talkDelay = g.talkDelay ∧
    (roomEntry g av).1.loopCount = g.loopCount ∧
    (roomEntry g av).1.status = g.status ∧
    (roomEntry g av).1.hasNavigated = true ∧
    settings (roomEntry g av).1 = settings g := by
  unfold roomEntry
  cases h : g.hasNavigated
  · simp only [Bool.false_eq_true, if_false]
    split <;> simp [settings]
  · simp [h]

theorem roomEntry_any_isSend (g : Globals) (av : AvatarEnv) :
    (roomEntry g av).2.any Action.isSend = false := by
  unfold roomEntry
  split
  · rfl
  · simp [Action.isSend, putOnAvatar_any_isSend]

theorem roomEntry_any_isWhisper (g : Globals) (av : AvatarEnv) :
    (roomEntry g av).2.any Action.isWhisper = false := by
  unfold roomEntry
  split
  · rfl
  · simp [Action.isWhisper, putOnAvatar_any_isWhisper]

theorem any_isWhisperOk_of_isWhisper (ok : Int) (acts : List Action)
    (h : acts.any Action.isWhisper = false) : acts.any (Action.isWhisperOk ok) = false := by
  induction acts with
  | nil => rfl
  | cons a as ih =>
    simp only [List.any_cons, Bool.or_eq_false_iff] at h ⊢
    refine ⟨?_, ih h.2⟩
    cases a <;> simp_all [Action.isWhisper, Action.isWhisperOk]

/-- The globals the babbling block leaves. -/
theorem babble_fields (P : Platform) (g : Globals) (q : Nat) :
    (babble P g q).g.talkDelay = (if g.talkDelay = 0 then 5 else wrap32 (g.talkDelay - 1)) ∧
    (babble P g q).g.loopCount = g.loopCount ∧
    (babble P g q).g.status = g.status ∧
    (babble P g q).g.hasNavigated = g.hasNavigated ∧
    settings (babble P g q).g = settings g := by
  unfold babble
  by_cases h : g.talkDelay = 0
  · simp only [h, if_true]
    split <;> simp [settings]
  · simp [h, settings]

/-- The calls of the babbling block: when it returns it has said a quote
exactly if it found the countdown at zero; it never whispers. -/
theorem babble_acts (P : Platform) (g : Globals) (q : Nat) :
    (babble P g q).acts.any Action.isWhisper = false ∧
    ((babble P g q).ending = none →
      ((babble P g q).acts.any Action.isSend = true ↔ g.talkDelay = 0)) ∧
    (∀ a ∈ (babble P g q).acts, Action.isSend a = true) := by
  unfold babble
  by_cases h : g.talkDelay = 0
  · simp only [h, if_true]
    split <;> simp [Action.isSend, Action.isWhisper]
  · simp [h]

/-- The babbling block ends the run only by the read outside the fortune array,
and not when the index lies inside it. -/
theorem babble_ending (P : Platform) (g : Globals) (q : Nat) :
    ((babble P g q).ending = none ∨ (babble P g q).ending = some Ending.faulted) ∧
    ((getSomethingToSay P.RAND_MAX g.fortunes g.numFortunes q).isSome = true →
      (babble P g q).ending = none) := by
  unfold babble
  by_cases h : g.talkDelay = 0
  · simp only [h, if_true]
    split
    · simp
    · rename_i hnone
      simp [hnone]
  · simp [h]

theorem probeMessage_congr (g g1 : Globals) (env : TickEnv) (h : g1.msgText = g.msgText) :
    probeMessage g1 env = probeMessage g env := by
  unfold probeMessage
  rw [h]

/-- What a run of the timer handler does to the countdown of the babbling:
a run that returns to the loop has sent a successful whisper, says a quote
exactly when it found the countdown at zero, and leaves the countdown reset or
decremented. -/
theorem timerTick_babble (P : Platform) (g : Globals) (env : TickEnv)
    (hend : (timerTick P g env).ending = none) :
    (timerTick P g env).acts.any (Action.isWhisperOk P.VP_OK) = true ∧
    (timerTick P g env).acts.any Action.isAlarm = true ∧
    ((timerTick P g env).acts.any Action.isSend = true ↔ g.talkDelay = 0) ∧
    (timerTick P g env).g.talkDelay
      = (if g.talkDelay = 0 then 5 else wrap32 (g.talkDelay - 1)) := by
  have hre := roomEntry_fields g env.avatar
  have hs := roomEntry_any_isSend g env.avatar
  unfold timerTick at hend ⊢
  simp only at hend ⊢
  split at hend
  · simp at hend
  · split at hend
    · simp at hend
    · split at hend
      · simp at hend
      · split at hend
        · simp at hend
        · rename_i h1 h2 h3 hrc
          have hrc1 : env.whisperRc = P.VP_OK := not_not.mp hrc
          rw [if_neg h1, if_neg h2, if_neg h3, if_neg hrc]
          split at hend
          · simp at hend
          · rename_i hb
            simp only [hb]
            have hba := babble_acts P
              { (roomEntry g env.avatar).1 with
                loopCount := wrap32 ((roomEntry g env.avatar).1.loopCount - 1) } env.randQ
            have hbf := babble_fields P
              { (roomEntry g env.avatar).1 with
                loopCount := wrap32 ((roomEntry g env.avatar).1.loopCount - 1) } env.randQ
            refine ⟨?_, ?_, ?_, ?_⟩
            · simp [Action.isWhisperOk, hrc1]
            · simp [setTimer, Action.isAlarm]
            · simp only [setTimer, List.any_append, List.any_cons, List.any_nil, hs,
                Action.isSend, Bool.or_false, Bool.false_or]
              rw [← hre.1]
              exact hba.2.1 hb
            · simp only [setTimer]
              rw [← hre.1]
              exact hbf.1

/-- A run of the timer handler that has re-armed the timer returned to the
loop; a run that ended the process made no `alarm` call. -/
theorem timerTick_alarm (P : Platform) (g : Globals) (env : TickEnv)
    (h : (timerTick P g env).acts.any Action.isAlarm = true) :
    (timerTick P g env).ending = none := by
  have hre : (roomEntry g env.avatar).2.any Action.isAlarm = false := by
    unfold roomEntry putOnAvatar
    split
    · rfl
    · split <;> simp [Action.isAlarm]
  have hba := (babble_acts P
    { (roomEntry g env.avatar).1 with
      loopCount := wrap32 ((roomEntry g env.avatar).1.loopCount - 1) } env.randQ).2.2
  have hbabble : (babble P
      { (roomEntry g env.avatar).1 with
        loopCount := wrap32 ((roomEntry g env.avatar).1.loopCount - 1) } env.randQ).acts.any
      Action.isAlarm = false := by
    rw [List.any_eq_false]
    intro a ha
    have := hba a ha
    cases a <;> simp_all [Action.isSend, Action.isAlarm]
  unfold timerTick at h ⊢
  simp only at h ⊢
  split
  · rename_i h1; rw [if_pos h1] at h; simp [hre] at h
  · rename_i h1
    rw [if_neg h1] at h
    split
    · rename_i h2; rw [if_pos h2] at h; simp [hre] at h
    · rename_i h2
      rw [if_neg h2] at h
      split
      · rename_i h3; rw [if_pos h3] at h; simp [hre] at h
      · rename_i h3
        rw [if_neg h3] at h
        split
        · rename_i h4; rw [if_pos h4] at h; simp [hre, Action.isAlarm] at h
        · rename_i h4
          rw [if_neg h4] at h
          split
          · rename_i x hb
            simp only [hb] at h
            simp [hre, hbabble, Action.isAlarm] at h
          · rfl

/-- The run of the timer handler writes none of the settings. -/
theorem timerTick_settings (P : Platform) (g : Globals) (env : TickEnv) :
    settings (timerTick P g env).g = settings g := by
  have hre := (roomEntry_fields g env.avatar).2.2.2.2
  have hbf := (babble_fields P
    { (roomEntry g env.avatar).1 with
      loopCount := wrap32 ((roomEntry g env.avatar).1.loopCount - 1) } env.randQ).2.2.2.2
  have h1 : settings { (roomEntry g env.avatar).1 with
      loopCount := wrap32 ((roomEntry g env.avatar).1.loopCount - 1) } = settings g := hre
  unfold timerTick
  simp only
  split
  · exact h1
  · split
    · exact h1
    · split
      · exact h1
      · split
        · exact h1
        · split
          · exact hbf.trans h1
          · exact hbf.trans h1

/-! ### What the events leave alone -/

theorem foldl_attrStep_counters (P : Platform) (attrs : List Attr)
    (ga : Globals × List Action) :
    counters (attrs.foldl (attrStep P) ga).1 = counters ga.1 ∧
    settings (attrs.foldl (attrStep P) ga).1 = settings ga.1 := by
  induction attrs generalizing ga with
  | nil => exact ⟨rfl, rfl⟩
  | cons a as ih =>
    rw [List.foldl_cons, (ih _).1, (ih _).2]
    unfold attrStep
    split
    · exact ⟨rfl, rfl⟩
    · split <;> exact ⟨rfl, rfl⟩

theorem handleEvent_counters (P : Platform) (g : Globals) (e : Event) :
    counters (handleEvent P g e).g = counters g ∧
    settings (handleEvent P g e).g = settings g := by
  cases e with
  | sigalrm => exact ⟨rfl, rfl⟩
  | connConnected rc attrs =>
    simp only [handleEvent, Connection.connected]
    split
    · exact ⟨rfl, rfl⟩
    · rw [(foldl_attrStep_counters _ _ _).1, (foldl_attrStep_counters _ _ _).2]
      split <;> exact ⟨rfl, rfl⟩
  | connDisconnecting reason => exact ⟨rfl, rfl⟩
  | placeConnected => exact ⟨rfl, rfl⟩
  | placeDisconnecting reason duration => exact ⟨rfl, rfl⟩
  | navigated reason r1 r2 =>
    simp only [handleEvent, ClientPlace.navigated]
    split <;> exact ⟨rfl, rfl⟩
  | whispered w => simp only [handleEvent, whispered_g, and_self]

theorem runEvents_frame (P : Platform) (evs : List Event) (g : Globals) :
    counters (runEvents P g evs).g = counters g ∧
    settings (runEvents P g evs).g = settings g := by
  induction evs generalizing g with
  | nil => exact ⟨rfl, rfl⟩
  | cons e es ih =>
    cases h : (handleEvent P g e).ending with
    | some x => rw [runEvents_cons_some P g e es x h]; exact handleEvent_counters P g e
    | none =>
      rw [runEvents_cons_none P g e es h]
      simp only
      rw [(ih _).1, (ih _).2]
      exact handleEvent_counters P g e

theorem runEvents_counters (P : Platform) (evs : List Event) (g : Globals) :
    counters (runEvents P g evs).g = counters g := (runEvents_frame P evs g).1

theorem tickEntries_runEvents (P : Platform) (evs : List Event) (g : Globals) :
    tickEntries (runEvents P g evs).trace = [] := by
  induction evs generalizing g with
  | nil => rfl
  | cons e es ih =>
    cases h : (handleEvent P g e).ending with
    | some x => rw [runEvents_cons_some P g e es x h]; rfl
    | none =>
      rw [runEvents_cons_none P g e es h]
      simp only [tickEntries, List.filterMap_cons, Entry.asTick]
      exact ih _

theorem tickEntries_append (a b : List Entry) :
    tickEntries (a ++ b) = tickEntries a ++ tickEntries b := by
  simp [tickEntries, List.filterMap_append]

theorem tickEntries_cons_tick (acts : List Action) (g : Globals) (tr : List Entry) :
    tickEntries (Entry.tick acts g :: tr) = (acts, g) :: tickEntries tr := by
  simp [tickEntries, Entry.asTick]

/-- The ticks of a run of the loop, unfolded by one round. -/
theorem tickEntries_mainLoop_cons (P : Platform) (g : Globals) (rd : Round)
    (rds : List Round) :
    tickEntries (mainLoop P g (rd :: rds)).trace =
      if g.status = DISCONNECTED then []
      else if g.timerEventOccurred = true then
        ((timerTick P g rd.tick).acts, (timerTick P g rd.tick).g) ::
          (if (timerTick P g rd.tick).ending = none ∧
              (runEvents P (timerTick P g rd.tick).g rd.events).ending = none then
            tickEntries
              (mainLoop P (runEvents P (timerTick P g rd.tick).g rd.events).g rds).trace
           else [])
      else if (runEvents P g rd.events).ending = none then
        tickEntries (mainLoop P (runEvents P g rd.events).g rds).trace
      else [] := by
  rw [mainLoop]
  by_cases hd : g.status = DISCONNECTED
  · simp [hd, tickEntries]
  · simp only [if_neg hd, runRound]
    by_cases hf : g.timerEventOccurred = true
    · simp only [hf, if_true]
      cases ht : (timerTick P g rd.tick).ending with
      | some x => simp [tickEntries, Entry.asTick]
      | none =>
        simp only
        cases he : (runEvents P (timerTick P g rd.tick).g rd.events).ending with
        | some x => simp [tickEntries_cons_tick, tickEntries_runEvents]
        | none =>
          simp [tickEntries_cons_tick, tickEntries_append, tickEntries_runEvents]
    · simp only [hf, if_false]
      cases he : (runEvents P g rd.events).ending with
      | some x => simp [he, tickEntries_runEvents]
      | none => simp [he, tickEntries_append, tickEntries_runEvents]

theorem tickEntries_mainLoop_nil (P : Platform) (g : Globals) :
    tickEntries (mainLoop P g []).trace = [] := by
  rw [mainLoop]
  split <;> rfl

/-- The calls of the ticks of a run of the loop, unfolded by one round. -/
theorem ticksOf_mainLoop_cons (P : Platform) (g : Globals) (rd : Round) (rds : List Round) :
    ticksOf (mainLoop P g (rd :: rds)).trace =
      if g.status = DISCONNECTED then []
      else if g.timerEventOccurred = true then
        (timerTick P g rd.tick).acts ::
          (if (timerTick P g rd.tick).ending = none ∧
              (runEvents P (timerTick P g rd.tick).g rd.events).ending = none then
            ticksOf (mainLoop P (runEvents P (timerTick P g rd.tick).g rd.events).g rds).trace
           else [])
      else if (runEvents P g rd.events).ending = none then
        ticksOf (mainLoop P (runEvents P g rd.events).g rds).trace
      else [] := by
  unfold ticksOf
  rw [tickEntries_mainLoop_cons]
  split
  · rfl
  · split
    · split <;> simp
    · split <;> simp

theorem ticksOf_mainLoop_nil (P : Platform) (g : Globals) :
    ticksOf (mainLoop P g []).trace = [] := by
  unfold ticksOf
  rw [tickEntries_mainLoop_nil]
  rfl


/-! ### The cadence of the quotes -/

theorem quoteInRange_congr (P : Platform) (g g1 : Globals) (env : TickEnv)
    (h : settings g1 = settings g) : quoteInRange P g1 env ↔ quoteInRange P g env := by
  simp only [settings, Prod.mk.injEq] at h
  unfold quoteInRange
  rw [h.2.2.2.2.2.1, h.2.2.2.2.2.2]

/-- A run of the timer handler whose whisper succeeded and whose quote lookup
stays inside the fortune array returns to the loop. -/
theorem timerTick_emit_completes (P : Platform) (g : Globals) (env : TickEnv)
    (hq : quoteInRange P g env)
    (hemit : (timerTick P g env).acts.any (Action.isWhisperOk P.VP_OK) = true) :
    (timerTick P g env).ending = none := by
  have hw := any_isWhisperOk_of_isWhisper P.VP_OK _ (roomEntry_any_isWhisper g env.avatar)
  have hset : settings { (roomEntry g env.avatar).1 with
      loopCount := wrap32 ((roomEntry g env.avatar).1.loopCount - 1) } = settings g :=
    (roomEntry_fields g env.avatar).2.2.2.2
  have hb := (babble_ending P
    { (roomEntry g env.avatar).1 with
      loopCount := wrap32 ((roomEntry g env.avatar).1.loopCount - 1) } env.randQ).2
    ((quoteInRange_congr P g _ env hset).mpr hq)
  unfold timerTick at hemit ⊢
  simp only at hemit ⊢
  split
  · rename_i h1; rw [if_pos h1] at hemit; simp [hw] at hemit
  · rename_i h1
    rw [if_neg h1] at hemit
    split
    · rename_i h2; rw [if_pos h2] at hemit; simp [hw] at hemit
    · rename_i h2
      rw [if_neg h2] at hemit
      split
      · rename_i h3; rw [if_pos h3] at hemit; simp [hw] at hemit
      · rename_i h3
        rw [if_neg h3] at hemit
        split
        · rename_i h4
          rw [if_pos h4] at hemit
          simp [hw, Action.isWhisperOk, h4] at hemit
        · simp only [hb]

/-- The countdown after `j` emitting ticks that started from 5. -/
theorem babble_countdown (P : Platform) (rds : List Round) (g : Globals) (j : Nat)
    (hj : g.talkDelay = 5 - ((j % 6 : Nat) : Int)) (k : Nat) (acts : List Action)
    (hk : (ticksOf (mainLoop P g rds).trace)[k]? = some acts)
    (hdone : acts.any Action.isAlarm = true) :
    (acts.any Action.isSend = true ↔ (j + k + 1) % 6 = 0) := by
  induction rds generalizing g j k with
  | nil => rw [ticksOf_mainLoop_nil] at hk; simp at hk
  | cons rd rds ih =>
    rw [ticksOf_mainLoop_cons] at hk
    by_cases hd : g.status = DISCONNECTED
    · simp [hd] at hk
    · simp only [if_neg hd] at hk
      have hc := runEvents_counters P rd.events
      by_cases hf : g.timerEventOccurred = true
      · simp only [hf, if_true] at hk
        cases k with
        | zero =>
          simp only [List.getElem?_cons_zero, Option.some.injEq] at hk
          subst hk
          have ht := timerTick_babble P g rd.tick (timerTick_alarm P g rd.tick hdone)
          rw [ht.2.2.1, hj]
          omega
        | succ k =>
          simp only [List.getElem?_cons_succ] at hk
          split at hk
          · rename_i hcond
            have hnew := (timerTick_babble P g rd.tick hcond.1).2.2.2
            have hc1 := hc (timerTick P g rd.tick).g
            simp only [counters, Prod.mk.injEq] at hc1
            have := ih (runEvents P (timerTick P g rd.tick).g rd.events).g (j + 1)
              (by
                rw [hc1.2.1, hnew, hj]
                split
                · omega
                · rw [wrap32_of_inInt32 _ (by unfold inInt32; omega)]; omega)
              k hk
            rw [this]
            omega
          · simp at hk
      · rw [if_neg hf] at hk
        split at hk
        · have hc1 := hc g
          simp only [counters, Prod.mk.injEq] at hc1
          exact ih _ j (by rw [hc1.2.1, hj]) k hk
        · simp at hk

/-- Every handled tick that is followed by another one has sent a successful
whisper and has run to its end: a tick that does not ends the process. -/
theorem earlier_ticks_emit (P : Platform) (rds : List Round) (g : Globals) (j : Nat)
    (acts : List Action) (hj : (ticksOf (mainLoop P g rds).trace)[j]? = some acts)
    (hnext : j + 1 < (ticksOf (mainLoop P g rds).trace).length) :
    acts.any (Action.isWhisperOk P.VP_OK) = true ∧ acts.any Action.isAlarm = true := by
  induction rds generalizing g j with
  | nil => rw [ticksOf_mainLoop_nil] at hj; simp at hj
  | cons rd rds ih =>
    rw [ticksOf_mainLoop_cons] at hj hnext
    by_cases hd : g.status = DISCONNECTED
    · simp [hd] at hj
    · simp only [if_neg hd] at hj hnext
      by_cases hf : g.timerEventOccurred = true
      · simp only [hf, if_true] at hj hnext
        by_cases hcond : (timerTick P g rd.tick).ending = none ∧
            (runEvents P (timerTick P g rd.tick).g rd.events).ending = none
        · rw [if_pos hcond] at hj hnext
          cases j with
          | zero =>
            simp only [List.getElem?_cons_zero, Option.some.injEq] at hj
            subst hj
            have ht := timerTick_babble P g rd.tick hcond.1
            exact ⟨ht.1, ht.2.1⟩
          | succ j =>
            simp only [List.getElem?_cons_succ] at hj
            simp only [List.length_cons] at hnext
            exact ih _ j hj (by omega)
        · rw [if_neg hcond] at hnext
          simp at hnext
      · rw [if_neg hf] at hj hnext
        split at hj
        · rename_i hev
          rw [if_pos hev] at hnext
          exact ih _ j hj hnext
        · simp at hj

/-- In a run whose quote lookups all stay inside the fortune array every tick
whose whisper succeeded runs to its end. -/
theorem emitting_ticks_complete (P : Platform) (rds : List Round) (g : Globals)
    (hq : ∀ rd ∈ rds, quoteInRange P g rd.tick) (k : Nat) (acts : List Action)
    (hk : (ticksOf (mainLoop P g rds).trace)[k]? = some acts)
    (hemit : acts.any (Action.isWhisperOk P.VP_OK) = true) :
    acts.any Action.isAlarm = true := by
  induction rds generalizing g k with
  | nil => rw [ticksOf_mainLoop_nil] at hk; simp at hk
  | cons rd rds ih =>
    rw [ticksOf_mainLoop_cons] at hk
    have hq1 := hq rd (List.mem_cons_self _ _)
    have hq2 : ∀ g1, settings g1 = settings g → ∀ r ∈ rds, quoteInRange P g1 r.tick :=
      fun g1 hs r hr => (quoteInRange_congr P g g1 r.tick hs).mpr
        (hq r (List.mem_cons_of_mem _ hr))
    by_cases hd : g.status = DISCONNECTED
    · simp [hd] at hk
    · simp only [if_neg hd] at hk
      by_cases hf : g.timerEventOccurred = true
      · simp only [hf, if_true] at hk
        cases k with
        | zero =>
          simp only [List.getElem?_cons_zero, Option.some.injEq] at hk
          subst hk
          exact (timerTick_babble P g rd.tick
            (timerTick_emit_completes P g rd.tick hq1 hemit)).2.1
        | succ k =>
          simp only [List.getElem?_cons_succ] at hk
          split at hk
          · exact ih _ (hq2 _ ((runEvents_frame P rd.events _).2.trans
              (timerTick_settings P g rd.tick))) k hk
          · simp at hk
      · rw [if_neg hf] at hk
        split at hk
        · exact ih _ (hq2 _ (runEvents_frame P rd.events g).2) k hk
        · simp at hk

/-- C10, as the code has it: starting from the countdown 5, the timer handler
tests the countdown against zero and decrements it afterwards, so five
emitting ticks pass silently and the sixth says a quote and sets the countdown
back to 5.  For the k-th emitting tick of a run (k counted from 1): when the
quote lookups of the run stay inside the fortune array, and also whenever the
tick itself has run to its end and re-armed the timer, the tick says a quote
if and only if k is a multiple of 6; all ticks before it are emitting ticks
that ran to their end.  Nothing is said about a tick whose quote lookup leaves
the array. -/
theorem quote_every_sixth_tick (P : Platform) (g : Globals) (rds : List Round)
    (hstart : g.talkDelay = 5) (k : Nat) (acts : List Action)
    (hk : (ticksOf (mainLoop P g rds).trace)[k]? = some acts)
    (hemit : acts.any (Action.isWhisperOk P.VP_OK) = true) :
    ((∀ rd ∈ rds, quoteInRange P g rd.tick) →
      (acts.any Action.isSend = true ↔ (k + 1) % 6 = 0)) ∧
    (acts.any Action.isAlarm = true →
      (acts.any Action.isSend = true ↔ (k + 1) % 6 = 0)) ∧
    (∀ j earlier, j < k → (ticksOf (mainLoop P g rds).trace)[j]? = some earlier →
      earlier.any (Action.isWhisperOk P.VP_OK) = true ∧
      earlier.any Action.isAlarm = true) := by
  have hlocal : acts.any Action.isAlarm = true →
      (acts.any Action.isSend = true ↔ (k + 1) % 6 = 0) := by
    intro hdone
    have := babble_countdown P rds g 0 (by rw [hstart]; rfl) k acts hk hdone
    rw [this]
    omega
  refine ⟨fun hq => hlocal (emitting_ticks_complete P rds g hq k acts hk hemit), hlocal, ?_⟩
  intro j earlier hjk hj
  have hlen : k < (ticksOf (mainLoop P g rds).trace).length := by
    by_contra hcon
    rw [List.getElem?_eq_none (by omega)] at hk
    simp at hk
  exact earlier_ticks_emit P rds g j earlier hj (by omega)

/-- C10 as stated fails: in a run of thirteen emitting ticks the fifth and the
tenth tick say nothing; the quotes come with the sixth and the twelfth. -/
theorem no_quote_on_fifth_tick :
    (ticksOf (main linux (sampleRun 20 (quietRounds 13))).trace).map
        (fun acts => (acts.any (Action.isWhisperOk 0), acts.any Action.isSend))
      = [(true, false), (true, false), (true, false), (true, false), (true, false),
         (true, true), (true, false), (true, false), (true, false), (true, false),
         (true, false), (true, true), (true, false)] := by
  decide

/-- In the sample session with 7 probes to send and an empty fortune file the
sixth tick whispers and moves and then leaves the fortune array: it says
nothing, the timer is not re-armed and the run ends there. -/
theorem empty_corpus_faults_on_sixth_tick :
    (ticksOf (mainLoop linux { enteredState with loopCount := 7, fortunes := [], numFortunes := 0 }
        (quietRounds 8)).trace).map
        (fun acts => (acts.any (Action.isWhisperOk 0), acts.any Action.isSend,
          acts.any Action.isAlarm))
      = [(true, false, true), (true, false, true), (true, false, true), (true, false, true),
         (true, false, true), (true, false, false)] ∧
    (mainLoop linux { enteredState with loopCount := 7, fortunes := [], numFortunes := 0 }
        (quietRounds 8)).ending = some Ending.faulted := by
  decide

theorem quote_every_sixth_tick_witness :
    ([Action.whisper "1005\t12:00:00\tabcdefghi".toList 0, Action.move 4 9,
        Action.send "one ".toList, Action.alarm 10].any Action.isSend = true
      ↔ (5 + 1) % 6 = 0) :=
  (quote_every_sixth_tick linux (main linux (sampleRun 20 [])).g (quietRounds 6)
    (by decide) 5 _ (by decide) (by decide)).1 (by decide)

/-! ### The room-entry block -/

theorem entryCalls_append (a b : List Action) :
    entryCalls (a ++ b) = ((entryCalls a).1 + (entryCalls b).1,
      (entryCalls a).2 + (entryCalls b).2) := by
  simp [entryCalls, List.countP_append]

theorem putOnAvatar_entryCalls (g : Globals) (av : AvatarEnv) :
    entryCalls (putOnAvatar g av) = (0, 1) := by
  unfold putOnAvatar entryCalls
  split <;> simp [List.countP_cons, Action.isNavigate, Action.isOpenAvatar]

theorem roomEntry_calls (g : Globals) (av : AvatarEnv) (rest : List Action) :
    (g.hasNavigated = false →
      startsWithRoomEntry ((roomEntry g av).2 ++ rest) = true ∧
      entryCalls (roomEntry g av).2 = (1, 1)) ∧
    (g.hasNavigated = true → entryCalls (roomEntry g av).2 = (0, 0)) := by
  constructor
  · intro h
    unfold roomEntry
    simp only [h, Bool.false_eq_true, if_false]
    constructor
    · simp [startsWithRoomEntry, putOnAvatar]
    · rw [show ∀ (a : Action) (l : List Action), a :: l = [a] ++ l from fun _ _ => rfl,
        entryCalls_append, putOnAvatar_entryCalls]
      simp [entryCalls, Action.isNavigate, Action.isOpenAvatar]
  · intro h
    unfold roomEntry
    simp [h, entryCalls]

theorem babble_entryCalls (P : Platform) (g : Globals) (q : Nat) :
    entryCalls (babble P g q).acts = (0, 0) := by
  unfold babble
  by_cases h : g.talkDelay = 0
  · simp only [h, if_true]
    split <;> simp [entryCalls, Action.isNavigate, Action.isOpenAvatar]
  · simp [h, entryCalls]

/-- The calls of a run of the timer handler are those of the room-entry block
followed by calls that neither navigate nor open the avatar file, and the run
leaves `hasNavigated` set. -/
theorem timerTick_roomEntry (P : Platform) (g : Globals) (env : TickEnv) :
    (timerTick P g env).g.hasNavigated = true ∧
    entryCalls (timerTick P g env).acts = entryCalls (roomEntry g env.avatar).2 ∧
    (g.hasNavigated = false → startsWithRoomEntry (timerTick P g env).acts = true) := by
  have hre := roomEntry_fields g env.avatar
  have hbf := babble_fields P
    { (roomEntry g env.avatar).1 with
      loopCount := wrap32 ((roomEntry g env.avatar).1.loopCount - 1) } env.randQ
  have hbc := babble_entryCalls P
    { (roomEntry g env.avatar).1 with
      loopCount := wrap32 ((roomEntry g env.avatar).1.loopCount - 1) } env.randQ
  have hstart := fun rest => (roomEntry_calls g env.avatar rest).1
  have hnav : (babble P
      { (roomEntry g env.avatar).1 with
        loopCount := wrap32 ((roomEntry g env.avatar).1.loopCount - 1) }
      env.randQ).g.hasNavigated = true := by
    rw [hbf.2.2.2.1]; exact hre.2.2.2.1
  unfold timerTick
  simp only
  split
  · exact ⟨hre.2.2.2.1, rfl, fun h => by simpa using (hstart [] h).1⟩
  · split
    · exact ⟨hre.2.2.2.1, rfl, fun h => by simpa using (hstart [] h).1⟩
    · split
      · exact ⟨hre.2.2.2.1, rfl, fun h => by simpa using (hstart [] h).1⟩
      · split
        · refine ⟨hre.2.2.2.1, ?_, fun h => ?_⟩
          · simp [entryCalls_append, entryCalls, Action.isNavigate, Action.isOpenAvatar]
          · rw [List.append_assoc]; exact (hstart _ h).1
        · split
          · refine ⟨hnav, ?_, fun h => ?_⟩
            · simp only [entryCalls_append, hbc]
              simp [entryCalls, Action.isNavigate, Action.isOpenAvatar]
            · simp only [List.append_assoc]; exact (hstart _ h).1
          · refine ⟨hnav, ?_, fun h => ?_⟩
            · simp only [entryCalls_append, hbc]
              simp [entryCalls, setTimer, Action.isNavigate, Action.isOpenAvatar]
            · simp only [List.append_assoc]; exact (hstart _ h).1

theorem later_ticks_skip_roomEntry (P : Platform) (rds : List Round) (g : Globals)
    (h : g.hasNavigated = true) :
    ∀ p ∈ tickEntries (mainLoop P g rds).trace, entryCalls p.1 = (0, 0) := by
  induction rds generalizing g with
  | nil => rw [tickEntries_mainLoop_nil]; simp
  | cons rd rds ih =>
    rw [tickEntries_mainLoop_cons]
    have hc := runEvents_counters P rd.events
    split
    · simp
    · split
      · obtain ⟨hnav, hcalls, _⟩ := timerTick_roomEntry P g rd.tick
        intro p hp
        rcases List.mem_cons.mp hp with rfl | hp
        · simp only
          rw [hcalls, (roomEntry_calls g rd.tick.avatar []).2 h]
        · split at hp
          · refine ih _ ?_ p hp
            have hc1 := hc (timerTick P g rd.tick).g
            simp only [counters, Prod.mk.injEq] at hc1
            rw [hc1.2.2, hnav]
          · simp at hp
      · split
        · refine ih _ ?_
          have hc1 := hc g
          simp only [counters, Prod.mk.injEq] at hc1
          rw [hc1.2.2, h]
        · simp

theorem ticks_leave_latch_set (P : Platform) (rds : List Round) (g : Globals) :
    ∀ p ∈ tickEntries (mainLoop P g rds).trace, p.2.hasNavigated = true := by
  induction rds generalizing g with
  | nil => rw [tickEntries_mainLoop_nil]; simp
  | cons rd rds ih =>
    rw [tickEntries_mainLoop_cons]
    split
    · simp
    · split
      · intro p hp
        rcases List.mem_cons.mp hp with rfl | hp
        · exact (timerTick_roomEntry P g rd.tick).1
        · split at hp
          · exact ih _ p hp
          · simp at hp
      · split
        · exact ih _
        · simp

/-- C7: in every run of the loop of `main` that starts with `hasNavigated`
unset and handles at least one timer tick, the first handled tick begins with
the room-entry block (navigation to position (500,500) with replica index 1,
then the opening of the avatar file) and contains it once, no later tick
navigates or opens the avatar file, and `hasNavigated` is set after every
tick. -/
theorem room_entry_exactly_once (P : Platform) (g : Globals) (rds : List Round)
    (first : List Action × Globals) (later : List (List Action × Globals))
    (hstart : g.hasNavigated = false)
    (hticks : tickEntries (mainLoop P g rds).trace = first :: later) :
    startsWithRoomEntry first.1 = true ∧
    first.1.countP Action.isNavigate = 1 ∧ first.1.countP Action.isOpenAvatar = 1 ∧
    (∀ p ∈ later, p.1.countP Action.isNavigate = 0 ∧ p.1.countP Action.isOpenAvatar = 0) ∧
    (∀ p ∈ first :: later, p.2.hasNavigated = true) := by
  have hlatch := ticks_leave_latch_set P rds g
  rw [hticks] at hlatch
  suffices hmain : startsWithRoomEntry first.1 = true ∧ entryCalls first.1 = (1, 1) ∧
      ∀ p ∈ later, entryCalls p.1 = (0, 0) by
    obtain ⟨h1, h2, h3⟩ := hmain
    simp only [entryCalls, Prod.mk.injEq] at h2 h3
    exact ⟨h1, h2.1, h2.2, h3, hlatch⟩
  clear hlatch
  induction rds generalizing g with
  | nil => rw [tickEntries_mainLoop_nil] at hticks; simp at hticks
  | cons rd rds ih =>
    rw [tickEntries_mainLoop_cons] at hticks
    have hc := runEvents_counters P rd.events
    split at hticks
    · simp at hticks
    · split at hticks
      · obtain ⟨hnav, hcalls, hshape⟩ := timerTick_roomEntry P g rd.tick
        simp only [List.cons.injEq] at hticks
        obtain ⟨hfirst, hlater⟩ := hticks
        subst hfirst
        simp only
        refine ⟨hshape hstart, ?_, ?_⟩
        · rw [hcalls, ((roomEntry_calls g rd.tick.avatar []).1 hstart).2]
        · split at hlater
          · rw [← hlater]
            apply later_ticks_skip_roomEntry
            have hc1 := hc (timerTick P g rd.tick).g
            simp only [counters, Prod.mk.injEq] at hc1
            rw [hc1.2.2, hnav]
          · rw [← hlater]; simp
      · split at hticks
        · refine ih _ ?_ hticks
          have hc1 := hc g
          simp only [counters, Prod.mk.injEq] at hc1
          rw [hc1.2.2, hstart]
        · simp at hticks

theorem room_entry_exactly_once_witness :
    startsWithRoomEntry (timerTick linux enteredState (sampleTick 1000)).acts = true ∧
    (tickEntries (mainLoop linux enteredState (quietRounds 3)).trace).map
        (fun p => (p.1.countP Action.isNavigate, p.1.countP Action.isOpenAvatar,
          p.2.hasNavigated))
      = [(1, 1, true), (0, 0, true), (0, 0, true)] :=
  ⟨(room_entry_exactly_once linux enteredState (quietRounds 3)
      ((timerTick linux enteredState (sampleTick 1000)).acts,
        (timerTick linux enteredState (sampleTick 1000)).g)
      ((tickEntries (mainLoop linux enteredState (quietRounds 3)).trace).tail)
      (by decide) (by decide)).1,
   by decide⟩


/-! ### Counting the probes -/

theorem roomEntry_whispers (g : Globals) (av : AvatarEnv) :
    whispers (roomEntry g av).2 = 0 := by
  have h := roomEntry_any_isWhisper g av
  unfold whispers
  rw [List.countP_eq_zero]
  intro a ha
  rw [List.any_eq_false] at h
  exact h a ha

theorem babble_whispers (P : Platform) (g : Globals) (q : Nat) :
    whispers (babble P g q).acts = 0 := by
  have h := (babble_acts P g q).1
  unfold whispers
  rw [List.countP_eq_zero]
  intro a ha
  rw [List.any_eq_false] at h
  exact h a ha

theorem whispers_append (a b : List Action) : whispers (a ++ b) = whispers a + whispers b := by
  simp [whispers, List.countP_append]

/-- Whether `ClientPlace::whispered` ends the run depends on the settings
only. -/
theorem whispered_ending_congr (P : Platform) (g g1 : Globals) (w : Whisper)
    (h : settings g1 = settings g) :
    (ClientPlace.whispered P g1 w).ending = (ClientPlace.whispered P g w).ending := by
  simp only [settings, Prod.mk.injEq] at h
  simp only [ClientPlace.whispered, lagReport, h.1, h.2.1, h.2.2.1]
  split_ifs <;> rfl

theorem tickInBounds_congr (P : Platform) (g g1 : Globals) (env : TickEnv)
    (h : settings g1 = settings g) : tickInBounds P g1 env ↔ tickInBounds P g env := by
  have hq := quoteInRange_congr P g g1 env h
  simp only [settings, Prod.mk.injEq] at h
  unfold tickInBounds
  rw [probeMessage_congr g g1 env h.2.2.2.1, h.2.2.2.2.1, hq]

theorem eventInBounds_congr (P : Platform) (g g1 : Globals) (e : Event)
    (h : settings g1 = settings g) : eventInBounds P g1 e ↔ eventInBounds P g e := by
  cases e <;> simp only [eventInBounds]
  rw [whispered_ending_congr P g g1 _ h]

theorem inBounds_congr (P : Platform) (g g1 : Globals) (rds : List Round)
    (h : settings g1 = settings g) (hb : inBounds P g rds) : inBounds P g1 rds := by
  intro rd hrd
  refine ⟨(tickInBounds_congr P g g1 rd.tick h).mpr (hb rd hrd).1, fun e he => ?_⟩
  exact (eventInBounds_congr P g g1 e h).mpr ((hb rd hrd).2 e he)

/-- A run of the timer handler in a connected session whose whisper succeeds
and which stays inside its buffer and the fortune array: with the counter at
zero it sends nothing and exits with status 0; otherwise it sends one whisper,
takes one off the counter and returns to the loop. -/
theorem timerTick_probe (P : Platform) (g : Globals) (env : TickEnv)
    (hst : g.status = CONNECTED) (hrc : env.whisperRc = P.VP_OK)
    (h0 : 0 ≤ g.loopCount) (h31 : g.loopCount < 2147483648)
    (hb : tickInBounds P g env) :
    (g.loopCount = 0 →
      (timerTick P g env).ending = some (Ending.exited 0) ∧
      whispers (timerTick P g env).acts = 0) ∧
    (g.loopCount ≠ 0 →
      (timerTick P g env).ending = none ∧ whispers (timerTick P g env).acts = 1 ∧
      (timerTick P g env).g.loopCount = g.loopCount - 1 ∧
      (timerTick P g env).g.status = CONNECTED) := by
  have hre := roomEntry_fields g env.avatar
  have hw := roomEntry_whispers g env.avatar
  have hwrap : wrap32 (g.loopCount - 1) = g.loopCount - 1 :=
    wrap32_of_inInt32 _ (by unfold inInt32; omega)
  have hset : settings { (roomEntry g env.avatar).1 with
      loopCount := wrap32 ((roomEntry g env.avatar).1.loopCount - 1) } = settings g :=
    hre.2.2.2.2
  have hb1 := (tickInBounds_congr P g _ env hset).mpr hb
  have hbend := (babble_ending P
    { (roomEntry g env.avatar).1 with
      loopCount := wrap32 ((roomEntry g env.avatar).1.loopCount - 1) } env.randQ).2 hb1.2
  have hbf := babble_fields P
    { (roomEntry g env.avatar).1 with
      loopCount := wrap32 ((roomEntry g env.avatar).1.loopCount - 1) } env.randQ
  have hbuf : ¬ ({ (roomEntry g env.avatar).1 with
      loopCount := wrap32 ((roomEntry g env.avatar).1.loopCount - 1) } : Globals).msgBuff
      ≤ (probeMessage { (roomEntry g env.avatar).1 with
      loopCount := wrap32 ((roomEntry g env.avatar).1.loopCount - 1) } env).length :=
    Nat.not_le.mpr hb1.1
  have hassert : ¬ (P.assertAborts && ({ (roomEntry g env.avatar).1 with
      loopCount := wrap32 ((roomEntry g env.avatar).1.loopCount - 1) } : Globals).status
      != CONNECTED) = true := by
    have : (roomEntry g env.avatar).1.status = CONNECTED := hre.2.2.1.trans hst
    simp [this]
  unfold timerTick
  simp only
  constructor
  · intro hz
    rw [if_pos (hre.2.1.trans hz)]
    exact ⟨rfl, hw⟩
  · intro hnz
    rw [if_neg (fun h => hnz (hre.2.1.symm.trans h)), if_neg hassert, if_neg hbuf,
      if_neg (not_not.mpr hrc)]
    simp only [hbend]
    refine ⟨trivial, ?_, ?_, ?_⟩
    · simp only [whispers_append, hw, babble_whispers]
      simp [whispers, setTimer, Action.isWhisper]
    · simp only [setTimer]
      rw [hbf.2.1]
      simp only [hre.2.1]
      exact hwrap
    · simp only [setTimer]
      rw [hbf.2.2.1]
      exact hre.2.2.1.trans hst

theorem handleEvent_quiet (P : Platform) (g : Globals) (e : Event)
    (he : e.keepsSession = true) (hb : eventInBounds P g e) (hst : g.status = CONNECTED) :
    (handleEvent P g e).ending = none ∧ (handleEvent P g e).g.status = CONNECTED := by
  constructor
  · cases e with
    | sigalrm => rfl
    | connConnected rc attrs => simp [Event.keepsSession] at he
    | connDisconnecting reason => simp [Event.keepsSession] at he
    | placeConnected => rfl
    | placeDisconnecting reason duration => simp [Event.keepsSession] at he
    | navigated reason r1 r2 =>
      simp only [handleEvent, ClientPlace.navigated]
      split <;> rfl
    | whispered w => exact hb
  · rw [handleEvent_status]
    cases e <;> simp_all [Event.keepsSession]

theorem runEvents_quiet (P : Platform) (evs : List Event) (g : Globals)
    (he : ∀ e ∈ evs, e.keepsSession = true) (hb : ∀ e ∈ evs, eventInBounds P g e)
    (hst : g.status = CONNECTED) :
    (runEvents P g evs).ending = none ∧ (runEvents P g evs).g.status = CONNECTED := by
  induction evs generalizing g with
  | nil => exact ⟨rfl, hst⟩
  | cons e es ih =>
    have h1 := handleEvent_quiet P g e (he e (List.mem_cons_self _ _))
      (hb e (List.mem_cons_self _ _)) hst
    rw [runEvents_cons_none P g e es h1.1]
    exact ih _ (fun a ha => he a (List.mem_cons_of_mem _ ha))
      (fun a ha => (eventInBounds_congr P g _ a (handleEvent_counters P g e).2).mpr
        (hb a (List.mem_cons_of_mem _ ha))) h1.2

/-- The way a run of the loop ends, unfolded by one round. -/
theorem mainLoop_cons_ending (P : Platform) (g : Globals) (rd : Round) (rds : List Round) :
    (mainLoop P g (rd :: rds)).ending =
      if g.status = DISCONNECTED then some (Ending.exited 1)
      else if g.timerEventOccurred = true then
        if (timerTick P g rd.tick).ending = none then
          if (runEvents P (timerTick P g rd.tick).g rd.events).ending = none then
            (mainLoop P (runEvents P (timerTick P g rd.tick).g rd.events).g rds).ending
          else (runEvents P (timerTick P g rd.tick).g rd.events).ending
        else (timerTick P g rd.tick).ending
      else if (runEvents P g rd.events).ending = none then
        (mainLoop P (runEvents P g rd.events).g rds).ending
      else (runEvents P g rd.events).ending := by
  rw [mainLoop]
  by_cases hd : g.status = DISCONNECTED
  · simp [hd]
  · simp only [if_neg hd, runRound]
    by_cases hf : g.timerEventOccurred = true
    · simp only [hf, if_true]
      cases ht : (timerTick P g rd.tick).ending with
      | some x => simp
      | none =>
        simp only
        cases he : (runEvents P (timerTick P g rd.tick).g rd.events).ending with
        | some x => simp
        | none => simp
    · simp only [hf, if_false]
      cases he : (runEvents P g rd.events).ending with
      | some x => simp [he]
      | none => simp [he]

theorem probes_counted (P : Platform) (rds : List Round) (g : Globals) (n : Nat)
    (hst : g.status = CONNECTED) (hn : g.loopCount = (n : Int))
    (h31 : (n : Int) < 2147483648) (hq : quietSession P rds) (hb : inBounds P g rds) :
    ((mainLoop P g rds).ending = none ∧
      ∃ a, a ≤ n ∧ (ticksOf (mainLoop P g rds).trace).map whispers = List.replicate a 1) ∨
    ((mainLoop P g rds).ending = some (Ending.exited 0) ∧
      (ticksOf (mainLoop P g rds).trace).map whispers = List.replicate n 1 ++ [0]) := by
  induction rds generalizing g n with
  | nil =>
    left
    rw [ticksOf_mainLoop_nil, mainLoop]
    simp [hst]
  | cons rd rds ih =>
    have hd : g.status ≠ DISCONNECTED := by rw [hst]; decide
    have hq1 := hq rd (List.mem_cons_self _ _)
    have hq2 : quietSession P rds := fun r hr => hq r (List.mem_cons_of_mem _ hr)
    have hb1 := hb rd (List.mem_cons_self _ _)
    have hb2 : inBounds P g rds := fun r hr => hb r (List.mem_cons_of_mem _ hr)
    have hc := runEvents_frame P rd.events
    rw [mainLoop_cons_ending, ticksOf_mainLoop_cons]
    simp only [if_neg hd]
    by_cases hf : g.timerEventOccurred = true
    · simp only [hf, if_true]
      have ht := timerTick_probe P g rd.tick hst hq1.1 (by omega) (by omega) hb1.1
      have hts := timerTick_settings P g rd.tick
      by_cases hz : g.loopCount = 0
      · right
        have hn0 : n = 0 := by omega
        subst hn0
        simp [(ht.1 hz).1, (ht.1 hz).2]
      · obtain ⟨hend, hw, hcount, hst1⟩ := ht.2 hz
        have hev := runEvents_quiet P rd.events (timerTick P g rd.tick).g hq1.2
          (fun e he => (eventInBounds_congr P g _ e hts).mpr (hb1.2 e he)) hst1
        have hc1 := (hc (timerTick P g rd.tick).g).1
        simp only [counters, Prod.mk.injEq] at hc1
        obtain ⟨m, hm⟩ : ∃ m, n = m + 1 := ⟨n - 1, by omega⟩
        subst hm
        simp only [hend, hev.1, and_self, if_true, List.map_cons, hw]
        rcases ih (runEvents P (timerTick P g rd.tick).g rd.events).g m hev.2
            (by rw [hc1.1, hcount, hn]; push_cast; omega) (by omega) hq2
            (inBounds_congr P g _ rds ((hc _).2.trans hts) hb2) with h | h
        · left
          obtain ⟨hend2, a, ha, hmap⟩ := h
          exact ⟨hend2, a + 1, by omega, by rw [hmap]; rfl⟩
        · right
          obtain ⟨hend2, hmap⟩ := h
          exact ⟨hend2, by rw [hmap]; rfl⟩
    · simp only [hf, if_false]
      have hev := runEvents_quiet P rd.events g hq1.2 hb1.2 hst
      have hc1 := (hc g).1
      simp only [counters, Prod.mk.injEq] at hc1
      simp only [hev.1, if_true]
      exact ih _ n hev.2 (by rw [hc1.1, hn]) h31 hq2
        (inBounds_congr P g _ rds (hc g).2 hb2)

theorem runEvents_alarm_last (P : Platform) (evs : List Event) (g : Globals)
    (hlast : evs.getLast? = some Event.sigalrm)
    (hend : (runEvents P g evs).ending = none) :
    (runEvents P g evs).g.timerEventOccurred = true := by
  induction evs generalizing g with
  | nil => simp at hlast
  | cons a as ih =>
    cases hstep : (handleEvent P g a).ending with
    | some x =>
      rw [runEvents_cons_some P g a as x hstep] at hend
      simp at hend
    | none =>
      rw [runEvents_cons_none P g a as hstep] at hend ⊢
      simp only at hend ⊢
      cases as with
      | nil =>
        simp only [List.getLast?_singleton, Option.some.injEq] at hlast
        subst hlast
        rfl
      | cons b bs =>
        apply ih
        · rw [← hlast, List.getLast?_cons_cons]
        · exact hend

/-- When the alarm is the last event of every round, every round handles a tick
until the process exits: `N + 1` rounds are enough to reach the exit. -/
theorem probes_when_alarm_fires (P : Platform) (rds : List Round) (g : Globals) (n : Nat)
    (hst : g.status = CONNECTED) (hn : g.loopCount = (n : Int))
    (h31 : (n : Int) < 2147483648) (hq : quietSession P rds) (hb : inBounds P g rds)
    (hflag : g.timerEventOccurred = true)
    (halarm : ∀ rd ∈ rds, rd.events.getLast? = some Event.sigalrm) :
    (ticksOf (mainLoop P g rds).trace).length = min rds.length (n + 1) := by
  induction rds generalizing g n with
  | nil => rw [ticksOf_mainLoop_nil]; simp
  | cons rd rds ih =>
    have hd : g.status ≠ DISCONNECTED := by rw [hst]; decide
    have hq1 := hq rd (List.mem_cons_self _ _)
    have hq2 : quietSession P rds := fun r hr => hq r (List.mem_cons_of_mem _ hr)
    have hb1 := hb rd (List.mem_cons_self _ _)
    have hb2 : inBounds P g rds := fun r hr => hb r (List.mem_cons_of_mem _ hr)
    have ha1 := halarm rd (List.mem_cons_self _ _)
    have ha2 : ∀ r ∈ rds, r.events.getLast? = some Event.sigalrm :=
      fun r hr => halarm r (List.mem_cons_of_mem _ hr)
    have hc := runEvents_frame P rd.events
    rw [ticksOf_mainLoop_cons]
    simp only [if_neg hd, hflag, if_true]
    have ht := timerTick_probe P g rd.tick hst hq1.1 (by omega) (by omega) hb1.1
    have hts := timerTick_settings P g rd.tick
    by_cases hz : g.loopCount = 0
    · have hn0 : n = 0 := by omega
      subst hn0
      simp [(ht.1 hz).1]
    · obtain ⟨hend, _, hcount, hst1⟩ := ht.2 hz
      have hev := runEvents_quiet P rd.events (timerTick P g rd.tick).g hq1.2
        (fun e he => (eventInBounds_congr P g _ e hts).mpr (hb1.2 e he)) hst1
      have hc1 := (hc (timerTick P g rd.tick).g).1
      simp only [counters, Prod.mk.injEq] at hc1
      obtain ⟨m, hm⟩ : ∃ m, n = m + 1 := ⟨n - 1, by omega⟩
      subst hm
      simp only [hend, hev.1, and_self, if_true, List.length_cons]
      rw [ih (runEvents P (timerTick P g rd.tick).g rd.events).g m hev.2
        (by rw [hc1.1, hcount, hn]; push_cast; omega) (by omega) hq2
        (inBounds_congr P g _ rds ((hc _).2.trans hts) hb2)
        (runEvents_alarm_last P rd.events _ ha1 hev.1) ha2]
      omega

/-- `ClientPlace::whispered` returns or overruns `msg`. -/
theorem whispered_ending (P : Platform) (g : Globals) (w : Whisper) :
    (ClientPlace.whispered P g w).ending = none ∨
    (ClientPlace.whispered P g w).ending = some Ending.faulted := by
  simp only [ClientPlace.whispered]
  split_ifs <;> simp

/-- A run of the timer handler in a connected session whose whisper succeeds,
whatever the sizes of its message and of the fortune array: with the counter
at zero it sends nothing and exits with status 0; otherwise it either sends
one whisper, takes one off the counter and returns to the loop, or leaves its
buffer or the fortune array after at most one whisper. -/
theorem timerTick_probe_any (P : Platform) (g : Globals) (env : TickEnv)
    (hst : g.status = CONNECTED) (hrc : env.whisperRc = P.VP_OK)
    (h0 : 0 ≤ g.loopCount) (h31 : g.loopCount < 2147483648) :
    (g.loopCount = 0 →
      (timerTick P g env).ending = some (Ending.exited 0) ∧
      whispers (timerTick P g env).acts = 0) ∧
    (g.loopCount ≠ 0 →
      ((timerTick P g env).ending = none ∧ whispers (timerTick P g env).acts = 1 ∧
        (timerTick P g env).g.loopCount = g.loopCount - 1 ∧
        (timerTick P g env).g.status = CONNECTED) ∨
      ((timerTick P g env).ending = some Ending.faulted ∧
        whispers (timerTick P g env).acts ≤ 1)) := by
  have hre := roomEntry_fields g env.avatar
  have hw := roomEntry_whispers g env.avatar
  have hwrap : wrap32 (g.loopCount - 1) = g.loopCount - 1 :=
    wrap32_of_inInt32 _ (by unfold inInt32; omega)
  have hbe := (babble_ending P
    { (roomEntry g env.avatar).1 with
      loopCount := wrap32 ((roomEntry g env.avatar).1.loopCount - 1) } env.randQ).1
  have hbf := babble_fields P
    { (roomEntry g env.avatar).1 with
      loopCount := wrap32 ((roomEntry g env.avatar).1.loopCount - 1) } env.randQ
  have hassert : ¬ (P.assertAborts && ({ (roomEntry g env.avatar).1 with
      loopCount := wrap32 ((roomEntry g env.avatar).1.loopCount - 1) } : Globals).status
      != CONNECTED) = true := by
    have : (roomEntry g env.avatar).1.status = CONNECTED := hre.2.2.1.trans hst
    simp [this]
  unfold timerTick
  simp only
  constructor
  · intro hz
    rw [if_pos (hre.2.1.trans hz)]
    exact ⟨rfl, hw⟩
  · intro hnz
    rw [if_neg (fun h => hnz (hre.2.1.symm.trans h)), if_neg hassert]
    split
    · right
      exact ⟨rfl, by rw [hw]; omega⟩
    · rw [if_neg (not_not.mpr hrc)]
      rcases hbe with hb | hb
      · left
        simp only [hb]
        refine ⟨trivial, ?_, ?_, ?_⟩
        · simp only [whispers_append, hw, babble_whispers]
          simp [whispers, setTimer, Action.isWhisper]
        · simp only [setTimer]
          rw [hbf.2.1]
          simp only [hre.2.1]
          exact hwrap
        · simp only [setTimer]
          rw [hbf.2.2.1]
          exact hre.2.2.1.trans hst
      · right
        simp only [hb]
        refine ⟨trivial, ?_⟩
        simp only [whispers_append, hw, babble_whispers]
        simp [whispers, Action.isWhisper]

theorem handleEvent_quiet_any (P : Platform) (g : Globals) (e : Event)
    (he : e.keepsSession = true) (hst : g.status = CONNECTED) :
    ((handleEvent P g e).ending = none ∧ (handleEvent P g e).g.status = CONNECTED) ∨
    (handleEvent P g e).ending = some Ending.faulted := by
  have hstat : (handleEvent P g e).g.status = CONNECTED := by
    rw [handleEvent_status]
    cases e <;> simp_all [Event.keepsSession]
  cases e with
  | sigalrm => exact Or.inl ⟨rfl, hstat⟩
  | connConnected rc attrs => simp [Event.keepsSession] at he
  | connDisconnecting reason => simp [Event.keepsSession] at he
  | placeConnected => exact Or.inl ⟨rfl, hstat⟩
  | placeDisconnecting reason duration => simp [Event.keepsSession] at he
  | navigated reason r1 r2 =>
    refine Or.inl ⟨?_, hstat⟩
    simp only [handleEvent, ClientPlace.navigated]
    split <;> rfl
  | whispered w =>
    rcases whispered_ending P g w with h | h
    · exact Or.inl ⟨h, hstat⟩
    · exact Or.inr h

theorem runEvents_quiet_any (P : Platform) (evs : List Event) (g : Globals)
    (he : ∀ e ∈ evs, e.keepsSession = true) (hst : g.status = CONNECTED) :
    ((runEvents P g evs).ending = none ∧ (runEvents P g evs).g.status = CONNECTED) ∨
    (runEvents P g evs).ending = some Ending.faulted := by
  induction evs generalizing g with
  | nil => exact Or.inl ⟨rfl, hst⟩
  | cons e es ih =>
    rcases handleEvent_quiet_any P g e (he e (List.mem_cons_self _ _)) hst with h1 | h1
    · rw [runEvents_cons_none P g e es h1.1]
      exact ih _ (fun a ha => he a (List.mem_cons_of_mem _ ha)) h1.2
    · rw [runEvents_cons_some P g e es _ h1]
      exact Or.inr rfl

/-- The whispers of a quiet run, tick by tick, whether or not the run stays
inside its buffers and the fortune array: the run is still going after at most
`n` ticks of one whisper each, or it has exited with status 0 on tick `n + 1`,
or it has left a buffer or the array among the first `n` ticks. -/
theorem probes_counted_any (P : Platform) (rds : List Round) (g : Globals) (n : Nat)
    (hst : g.status = CONNECTED) (hn : g.loopCount = (n : Int))
    (h31 : (n : Int) < 2147483648) (hq : quietSession P rds) :
    ((mainLoop P g rds).ending = none ∧
      ∃ a, a ≤ n ∧ (ticksOf (mainLoop P g rds).trace).map whispers = List.replicate a 1) ∨
    ((mainLoop P g rds).ending = some (Ending.exited 0) ∧
      (ticksOf (mainLoop P g rds).trace).map whispers = List.replicate n 1 ++ [0]) ∨
    ((mainLoop P g rds).ending = some Ending.faulted ∧
      ∃ a, a ≤ n ∧
        ((ticksOf (mainLoop P g rds).trace).map whispers = List.replicate a 1 ∨
         (a < n ∧
          (ticksOf (mainLoop P g rds).trace).map whispers = List.replicate a 1 ++ [0]))) := by
  induction rds generalizing g n with
  | nil =>
    left
    rw [ticksOf_mainLoop_nil, mainLoop]
    simp [hst]
  | cons rd rds ih =>
    have hd : g.status ≠ DISCONNECTED := by rw [hst]; decide
    have hq1 := hq rd (List.mem_cons_self _ _)
    have hq2 : quietSession P rds := fun r hr => hq r (List.mem_cons_of_mem _ hr)
    have hc := runEvents_frame P rd.events
    rw [mainLoop_cons_ending, ticksOf_mainLoop_cons]
    simp only [if_neg hd]
    by_cases hf : g.timerEventOccurred = true
    · simp only [hf, if_true]
      have ht := timerTick_probe_any P g rd.tick hst hq1.1 (by omega) (by omega)
      by_cases hz : g.loopCount = 0
      · right; left
        have hn0 : n = 0 := by omega
        subst hn0
        simp [(ht.1 hz).1, (ht.1 hz).2]
      · obtain ⟨m, hm⟩ : ∃ m, n = m + 1 := ⟨n - 1, by omega⟩
        subst hm
        rcases ht.2 hz with ⟨hend, hw, hcount, hst1⟩ | ⟨hend, hw⟩
        · have hc1 := (hc (timerTick P g rd.tick).g).1
          simp only [counters, Prod.mk.injEq] at hc1
          rcases runEvents_quiet_any P rd.events (timerTick P g rd.tick).g hq1.2 hst1
            with hev | hev
          · simp only [hend, hev.1, and_self, if_true, List.map_cons, hw]
            rcases ih (runEvents P (timerTick P g rd.tick).g rd.events).g m hev.2
                (by rw [hc1.1, hcount, hn]; push_cast; omega) (by omega) hq2 with h | h | h
            · left
              obtain ⟨hend2, a, ha, hmap⟩ := h
              exact ⟨hend2, a + 1, by omega, by rw [hmap]; rfl⟩
            · right; left
              obtain ⟨hend2, hmap⟩ := h
              exact ⟨hend2, by rw [hmap]; rfl⟩
            · right; right
              obtain ⟨hend2, a, ha, hmap⟩ := h
              refine ⟨hend2, a + 1, by omega, ?_⟩
              rcases hmap with hmap | ⟨ha2, hmap⟩
              · left; rw [hmap]; rfl
              · right; exact ⟨by omega, by rw [hmap]; rfl⟩
          · right; right
            simp only [hend, hev, true_and, if_true, List.map_cons, hw]
            refine ⟨by simp, 1, by omega, Or.inl ?_⟩
            simp
        · right; right
          simp only [hend]
          refine ⟨by simp, ?_⟩
          have hw01 : whispers (timerTick P g rd.tick).acts = 0 ∨
              whispers (timerTick P g rd.tick).acts = 1 := by omega
          rcases hw01 with h0 | h1
          · exact ⟨0, by omega, Or.inr ⟨by omega, by simp [h0]⟩⟩
          · exact ⟨1, by omega, Or.inl (by simp [h1])⟩
    · simp only [hf, if_false]
      have hc1 := (hc g).1
      simp only [counters, Prod.mk.injEq] at hc1
      rcases runEvents_quiet_any P rd.events g hq1.2 hst with hev | hev
      · simp only [hev.1, if_true]
        exact ih _ n hev.2 (by rw [hc1.1, hn]) h31 hq2
      · right; right
        simp only [hev]
        exact ⟨by simp, 0, by omega, Or.inl (by simp)⟩

theorem splitLines_ne_nil (c : Char) (cs : CStr) : splitLines (c :: cs) ≠ [] := by
  rw [splitLines]
  split
  · simp
  · split <;> simp

theorem splitLines_line_ne_nil (text : CStr) : ∀ l ∈ splitLines text, l ≠ [] := by
  induction text with
  | nil => simp [splitLines]
  | cons c cs ih =>
    rw [splitLines]
    split
    · intro l hl
      rcases List.mem_cons.mp hl with rfl | hl
      · simp
      · exact ih l hl
    · split
      · simp
      · rename_i l ls hsplit
        intro x hx
        rcases List.mem_cons.mp hx with rfl | hx
        · simp
        · exact ih x (by rw [hsplit]; exact List.mem_cons_of_mem _ hx)

theorem splitLines_break_last (text : CStr) : ∀ l ∈ splitLines text, LF ∉ l.dropLast := by
  induction text with
  | nil => simp [splitLines]
  | cons c cs ih =>
    have hne := splitLines_line_ne_nil cs
    rw [splitLines]
    split
    · intro l hl
      rcases List.mem_cons.mp hl with rfl | hl
      · simp
      · exact ih l hl
    · rename_i hc
      split
      · simp
      · rename_i l ls hsplit
        rw [hsplit] at ih hne
        intro x hx
        rcases List.mem_cons.mp hx with rfl | hx
        · have hl : l ≠ [] := hne l (List.mem_cons_self _ _)
          obtain ⟨y, ys, rfl⟩ := List.exists_cons_of_ne_nil hl
          rw [List.dropLast_cons₂]
          intro hmem
          rcases List.mem_cons.mp hmem with h | h
          · exact hc h.symm
          · exact ih _ (List.mem_cons_self _ _) h
        · exact ih x (List.mem_cons_of_mem _ hx)

theorem replaceFirst_eq_map (l : CStr) (h : LF ∉ l.dropLast) :
    replaceFirst LF (Char.ofNat 32) l = l.map collapseBreak := by
  induction l with
  | nil => rfl
  | cons x xs ih =>
    cases xs with
    | nil =>
      simp only [replaceFirst, List.map_cons, List.map_nil, collapseBreak]
      split <;> rfl
    | cons y ys =>
      rw [List.dropLast_cons₂] at h
      have hx : x ≠ LF := fun hx => h (by rw [hx]; exact List.mem_cons_self _ _)
      have hys : LF ∉ (y :: ys).dropLast := fun hm => h (List.mem_cons_of_mem _ hm)
      have e : replaceFirst LF (Char.ofNat 32) (x :: y :: ys)
          = x :: replaceFirst LF (Char.ofNat 32) (y :: ys) := by
        rw [replaceFirst]; exact if_neg hx
      rw [e, ih hys]
      simp [collapseBreak, hx]

theorem cstr_of_no_nul (l : CStr) (h : NUL ∉ l) : cstr l = l := by
  unfold cstr
  rw [List.takeWhile_eq_self_iff]
  intro c hc
  simp only [bne_iff_ne, ne_eq]
  intro hcn
  exact h (hcn ▸ hc)

theorem fgetsAux_append (n : Nat) (text : CStr) :
    (fgetsAux n text).1 ++ (fgetsAux n text).2 = text := by
  induction text generalizing n with
  | nil => cases n <;> rfl
  | cons c cs ih =>
    cases n with
    | zero => rfl
    | succ k =>
      rw [fgetsAux]
      split
      · rfl
      · simp [ih k]

theorem fgetsAux_rest_shorter (n : Nat) (c : Char) (cs : CStr) :
    (fgetsAux (n + 1) (c :: cs)).2.length < (c :: cs).length := by
  have h := congrArg List.length (fgetsAux_append (n + 1) (c :: cs))
  have h1 : 0 < (fgetsAux (n + 1) (c :: cs)).1.length := by
    rw [fgetsAux]
    split <;> simp
  rw [List.length_append] at h
  omega

/-- The loop of `getFortunes` reaches the end of the file before its fuel runs
out: with more fuel than the file has characters the result does not depend
on the fuel. -/
theorem getFortunesLoop_fuel (fuel k : Nat) (text : CStr) (s : Option CStr)
    (acc : List CStr) (num : Nat) (hfuel : text.length < fuel) :
    getFortunesLoop (fuel + k) text s acc num = getFortunesLoop fuel text s acc num := by
  induction fuel generalizing text s acc num with
  | zero => simp at hfuel
  | succ fuel ih =>
    rw [show fuel + 1 + k = (fuel + k) + 1 by omega]
    cases text with
    | nil => simp [getFortunesLoop, fgets]
    | cons c cs =>
      have hlen : (fgetsAux 499 (c :: cs)).2.length < fuel := by
        have := fgetsAux_rest_shorter 498 c cs
        rw [show 498 + 1 = 499 from rfl] at this
        simp only [List.length_cons] at this hfuel ⊢
        omega
      have hIH := fun s1 acc1 num1 => ih (fgetsAux 499 (c :: cs)).2 s1 acc1 num1 hlen
      rw [getFortunesLoop, getFortunesLoop]
      simp only [fgets, Nat.add_one_sub_one]
      split
      · cases s <;> simp only [hIH]
      · split
        · exact hIH _ _ _
        · cases s <;> simp only [hIH]

/-- One `fgets` call reads the first line of the text when the line fits. -/
theorem fgetsAux_splitLines (text : CStr) (n : Nat) (hd : CStr) (tl : List CStr)
    (hsplit : splitLines text = hd :: tl) (hfit : hd.length ≤ n) :
    (fgetsAux n text).1 = hd ∧ splitLines (fgetsAux n text).2 = tl := by
  induction text generalizing n hd tl with
  | nil => simp [splitLines] at hsplit
  | cons c cs ih =>
    rw [splitLines] at hsplit
    by_cases hc : c = LF
    · rw [if_pos hc] at hsplit
      simp only [List.cons.injEq] at hsplit
      obtain ⟨rfl, rfl⟩ := hsplit
      cases n with
      | zero => simp at hfit
      | succ k => simp [fgetsAux, hc]
    · rw [if_neg hc] at hsplit
      cases n with
      | zero =>
        exfalso
        split at hsplit
        · simp only [List.cons.injEq] at hsplit
          rw [← hsplit.1] at hfit
          simp at hfit
        · simp only [List.cons.injEq] at hsplit
          rw [← hsplit.1] at hfit
          simp at hfit
      | succ k =>
        rw [fgetsAux, if_neg hc]
        cases hcs : splitLines cs with
        | nil =>
          rw [hcs] at hsplit
          simp only [List.cons.injEq] at hsplit
          obtain ⟨rfl, rfl⟩ := hsplit
          cases cs with
          | nil => cases k <;> simp [fgetsAux, splitLines]
          | cons d ds => exact absurd hcs (splitLines_ne_nil d ds)
        | cons l ls =>
          rw [hcs] at hsplit
          simp only [List.cons.injEq] at hsplit
          obtain ⟨rfl, rfl⟩ := hsplit
          have := ih k l ls hcs (by simpa using hfit)
          simp [this.1, this.2]

theorem pendingRecords_none (groups : List (List CStr)) :
    pendingRecords none groups =
      (groups.filter (fun grp => !grp.isEmpty)).map (fun grp => grp.flatten.map collapseBreak) := by
  cases groups with
  | nil => rfl
  | cons g0 gs =>
    cases g0 with
    | nil => simp [pendingRecords]
    | cons x xs => simp [pendingRecords]

theorem getFortunesLoop_spec (fuel : Nat) (text : CStr) (s : Option CStr) (acc : List CStr)
    (num : Nat) (hfuel : text.length < fuel)
    (hfit : ∀ l ∈ splitLines text, l.length ≤ 499) (hnul : NUL ∉ text) :
    (storeLast (getFortunesLoop fuel text s acc num)).1
      = acc ++ pendingRecords s ((splitLines text).splitOnP beginsWithPercent) ∧
    (storeLast (getFortunesLoop fuel text s acc num)).2 + acc.length
      = num + (storeLast (getFortunesLoop fuel text s acc num)).1.length := by
  induction fuel generalizing text s acc num with
  | zero => simp at hfuel
  | succ fuel ih =>
    cases text with
    | nil =>
      cases s <;>
        simp [getFortunesLoop, fgets, storeLast, splitLines, List.splitOnP_nil, pendingRecords]
      omega
    | cons c cs =>
      obtain ⟨hd, tl, hsplit⟩ := List.exists_cons_of_ne_nil (splitLines_ne_nil c cs)
      have hhd : hd.length ≤ 499 := hfit hd (by rw [hsplit]; exact List.mem_cons_self _ _)
      have hread := fgetsAux_splitLines (c :: cs) 499 hd tl hsplit hhd
      have happ := fgetsAux_append 499 (c :: cs)
      have hhdne : hd ≠ [] :=
        splitLines_line_ne_nil (c :: cs) hd (by rw [hsplit]; exact List.mem_cons_self _ _)
      have hlast : LF ∉ hd.dropLast :=
        splitLines_break_last (c :: cs) hd (by rw [hsplit]; exact List.mem_cons_self _ _)
      rw [hread.1] at happ
      have hrestlen : (fgetsAux 499 (c :: cs)).2.length < fuel := by
        have h1 := congrArg List.length happ
        have h2 : 0 < hd.length := List.length_pos.mpr hhdne
        simp only [List.length_append, List.length_cons] at h1 hfuel
        omega
      have hrestfit : ∀ l ∈ splitLines (fgetsAux 499 (c :: cs)).2, l.length ≤ 499 := by
        intro l hl
        rw [hread.2] at hl
        exact hfit l (by rw [hsplit]; exact List.mem_cons_of_mem _ hl)
      have hrestnul : NUL ∉ (fgetsAux 499 (c :: cs)).2 := by
        intro hm
        exact hnul (by rw [← happ]; exact List.mem_append_right _ hm)
      have hhdnul : NUL ∉ hd := by
        intro hm
        exact hnul (by rw [← happ]; exact List.mem_append_left _ hm)
      have hcstr : cstr hd = hd := cstr_of_no_nul hd hhdnul
      have hIH := fun s1 acc1 num1 =>
        ih (fgetsAux 499 (c :: cs)).2 s1 acc1 num1 hrestlen hrestfit hrestnul
      rw [hread.2] at hIH
      rw [hsplit, List.splitOnP_cons]
      rw [getFortunesLoop]
      simp only [fgets, Nat.add_one_sub_one, hread.1]
      by_cases hsep : hd.head? = some (Char.ofNat 37)
      · have hb : beginsWithPercent hd = true := by simp [beginsWithPercent, hsep]
        simp only [hsep, if_true, hb]
        cases s with
        | none =>
          simp only
          have h := hIH none acc num
          rw [pendingRecords_none] at h
          constructor
          · rw [h.1]; simp [pendingRecords]
          · exact h.2
        | some rec =>
          simp only
          have h := hIH none (acc ++ [rec]) (num + 1)
          rw [pendingRecords_none] at h
          constructor
          · rw [h.1]; simp [pendingRecords]
          · have h2 := h.2
            simp only [List.length_append, List.length_singleton] at h2
            omega
      · have hb : beginsWithPercent hd = false := by simp [beginsWithPercent, hsep]
        have hlen : ¬ hd.length = 500 := by omega
        simp only [hsep, if_false, hb, hcstr, hlen, Bool.false_eq_true]
        rw [replaceFirst_eq_map hd hlast]
        obtain ⟨g0, gs, hgroups⟩ :=
          List.exists_cons_of_ne_nil (List.splitOnP_ne_nil beginsWithPercent tl)
        rw [hgroups] at hIH ⊢
        simp only [List.modifyHead_cons]
        cases s with
        | none =>
          simp only
          have h := hIH (some (hd.map collapseBreak)) acc num
          constructor
          · rw [h.1]; simp [pendingRecords]
          · exact h.2
        | some rec =>
          simp only
          have h := hIH (some (rec ++ hd.map collapseBreak)) acc num
          constructor
          · rw [h.1]; simp [pendingRecords]
          · exact h.2

/-- C9, as the code has it: for every text without NUL characters whose lines
fit the read buffer (at most 499 characters, line feed included),
`getFortunes` splits the text at every line whose first character is `%`,
whatever follows it on the line; the lines between two such lines, when there
are any, form one record, which is their concatenation with every line break
replaced by a space; the records are stored in file order and `numFortunes`,
started at 0, ends as the number of stored records. -/
theorem getFortunes_splits_at_percent_lines (text : CStr)
    (hfit : ∀ l ∈ splitLines text, l.length ≤ 499) (hnul : NUL ∉ text) :
    (getFortunes 0 text).1 = specRecords beginsWithPercent text ∧
    (getFortunes 0 text).2 = (getFortunes 0 text).1.length := by
  have h := getFortunesLoop_spec (text.length + 1) text none [] 0 (Nat.lt_succ_self _) hfit hnul
  unfold getFortunes
  constructor
  · rw [h.1, pendingRecords_none]
    rfl
  · have h2 := h.2
    simp only [List.length_nil, Nat.add_zero, Nat.zero_add] at h2
    exact h2

/-- C9 as stated fails: a line that only begins with `%` ends a record.  For the
text with the lines `a`, `%b`, `c` the code stores the two records `a ` and
`c `, while splitting at the lines that hold nothing but `%` gives the single
record `a %b c `. -/
theorem percent_prefixed_line_splits_records :
    (getFortunes 0 "a\n%b\nc\n".toList).1 = ["a ".toList, "c ".toList] ∧
    specRecords isPercentAlone "a\n%b\nc\n".toList = ["a %b c ".toList] ∧
    (getFortunes 0 "a\n%b\nc\n".toList).1 ≠ specRecords isPercentAlone "a\n%b\nc\n".toList := by
  decide

theorem getFortunes_splits_at_percent_lines_witness :
    (getFortunes 0 "one\ntwo\n%\n%%\nthree".toList).1 = ["one two ".toList, "three".toList] ∧
    (getFortunes 0 "one\ntwo\n%\n%%\nthree".toList).2 = 2 :=
  ⟨(getFortunes_splits_at_percent_lines "one\ntwo\n%\n%%\nthree".toList
      (by decide) (by decide)).1.trans (by decide),
   by decide⟩

/-! ### The filler text -/

theorem filler_char_ne_nul (i : Nat) : Char.ofNat (97 + i % 26) ≠ NUL := by
  have h : i % 26 < 26 := Nat.mod_lt _ (by decide)
  generalize i % 26 = m at h
  interval_cases m <;> decide

/-- For every size `l >= 1` the C string made by `makeStr l` has `l - 1`
characters: the last of the `l` bytes holds the NUL. -/
theorem makeStr_length (l : Nat) (h : 1 ≤ l) : (showStr (makeStr l)).length = l - 1 := by
  obtain ⟨k, rfl⟩ : ∃ k, l = k + 1 := ⟨l - 1, by omega⟩
  have hset : ((List.range (k + 1)).map (fun i => Char.ofNat (97 + i % 26))).set k NUL
      = (List.range k).map (fun i => Char.ofNat (97 + i % 26)) ++ [NUL] := by
    rw [List.range_succ, List.map_append, List.map_singleton]
    rw [List.set_append_right _ _ (by simp)]
    simp
  have htake : cstr ((List.range k).map (fun i => Char.ofNat (97 + i % 26)) ++ [NUL])
      = (List.range k).map (fun i => Char.ofNat (97 + i % 26)) := by
    unfold cstr
    rw [List.takeWhile_append_of_pos]
    · simp [List.takeWhile]
    · intro c hc
      obtain ⟨i, _, rfl⟩ := List.mem_map.mp hc
      simpa using filler_char_ne_nul i
  simp only [makeStr, Nat.add_one_sub_one, showStr, gt_iff_lt, Nat.zero_lt_succ, if_true, hset,
    htake, List.length_map, List.length_range]

end LoadTest
